import Mathlib

/-!
msgconn: length-prefixed message framing

A shallow embedding of the Go package `msgconn` (`encoding.go`, `alloc.go`,
`conn.go`) and proofs about its framing codec.

Modelling conventions

* `[]byte` is `List Byte` with `Byte := Fin 256`; a possibly-nil slice returned to
  the caller is `Option (List Byte)` with `none` standing for `nil`.
* Go `int` values are `Int`; the conversion `uint32(l)` is `l % 2 ^ 32`, and
  `byte(v)` is `v % 256`.
* `io.Reader`, `io.Writer` and `Allocator` are interfaces; each is a record holding
  the method as a function of an explicit collaborator state.
* The loop of `ReadAll` need not terminate (a reader may return `0, nil` for ever),
  so it is run with a fuel bound on the number of `Read` calls; `none` means the
  bound was hit before the loop ended.
* An index out of range, or a `make` with illegal sizes, is a run-time panic:
  `Outcome.panicked`.
-/

namespace Msgconn

/-- One octet. -/
abbrev Byte := Fin 256

/-- The conversion `byte(v)` of an unsigned value: the low eight bits. -/
def byte (v : Nat) : Byte := ⟨v % 256, Nat.mod_lt v (by decide)⟩

/-- Go `error` values that are not nil. `ErrPrefixBufferSize` and `ErrMsgSize` are the
two sentinels declared in `encoding.go`; `EOF` is `io.EOF`; `foreign` is any other
error value produced by a collaborator. -/
inductive Error where
  | ErrPrefixBufferSize
  | ErrMsgSize
  | EOF
  | foreign (tag : Nat)
  deriving DecidableEq, Repr

/-- Result of running a Go call: it returned a value, or it panicked. -/
inductive Outcome (α : Type) where
  | returned (a : α)
  | panicked
  deriving DecidableEq, Repr

/-- The constant `MaxLegalSize = 256 * 256 * 256`. -/
def MaxLegalSize : Int := 256 * 256 * 256

/-- Go `ParsePrefix`: `int(uint32(b[0]) | uint32(b[1])<<8 | uint32(b[2])<<16)`.
Indexing a slice shorter than three bytes panics (`none`). -/
def ParsePrefix (b : List Byte) : Option Int :=
  match b[0]?, b[1]?, b[2]? with
  | some b0, some b1, some b2 =>
    some (Int.ofNat (b0.val ||| ((b1.val <<< 8) % 2 ^ 32) ||| ((b2.val <<< 16) % 2 ^ 32)))
  | _, _, _ => none

/-- Go `WritePrefix`: `v := uint32(l); b[0] = byte(v); b[1] = byte(v >> 8); b[2] = byte(v >> 16)`.
Returns the slice contents after the three stores; an index out of range panics
(`none`). -/
def WritePrefix (b : List Byte) (l : Int) : Option (List Byte) :=
  let v : Nat := (l % 2 ^ 32).toNat
  if b.length < 3 then none
  else some (((b.set 0 (byte v)).set 1 (byte (v >>> 8))).set 2 (byte (v >>> 16)))

/-- What one call `Read(p)` of an `io.Reader` hands back: the reported count `n`, the
bytes it stored into `p` starting at `p[0]`, and the error. A reader may use all of
`p` as scratch space, so `data` is kept apart from `n`. The count is a `Nat`: the
`io.Reader` contract `0 <= n` is part of the type (it may still exceed `len(p)`). -/
structure ReadReturn where
  n : Nat
  data : List Byte
  err : Option Error
  deriving DecidableEq, Repr

/-- An `io.Reader` with collaborator state `σ`. `Read s p` is given the current
contents of the destination slice `p`. -/
structure Reader (σ : Type) where
  Read : σ → List Byte → ReadReturn × σ

/-- An `io.Writer` with collaborator state `τ`: `Write s p` returns `(n, err)`. -/
structure Writer (τ : Type) where
  Write : τ → List Byte → (Int × Option Error) × τ

/-- The `Allocator` interface of `alloc.go` with collaborator state `α`:
`Allocate(len, cap)` returns a slice (possibly nil) or panics. -/
structure Allocator (α : Type) where
  Allocate : α → Int → Int → Outcome (Option (List Byte)) × α

/-- Go `makeAllocator.Allocate`: `make([]byte, len, cap)`, a zeroed slice of `len` bytes;
`make` panics when `len < 0` or `cap < len`. -/
def MakeAllocator : Allocator Unit where
  Allocate := fun _ len cap =>
    if 0 ≤ len ∧ len ≤ cap then (Outcome.returned (some (List.replicate len.toNat 0)), ())
    else (Outcome.panicked, ())

/-- Go `DefaultAllocator`, which returns `MakeAllocator`. -/
def DefaultAllocator : Allocator Unit := MakeAllocator

/-- Contents of the slice `p` after a callee has stored `d` into it from position 0:
stores past the end of `p` cannot happen, so `d` is cut at `len(p)`. -/
def store (p d : List Byte) : List Byte :=
  (d ++ p.drop d.length).take p.length

/-- The loop of `ReadAll`, entered with the current `index`:
`for index < l { done, err := r.Read(b[index:]); if err != nil { return err }; index += done }; return nil`.
The result is the returned error, the contents of `b` and the reader state; `none`
when `fuel` calls of `Read` did not end the loop. -/
def ReadAllFrom {σ : Type} (R : Reader σ) :
    Nat → σ → List Byte → Nat → Option (Option Error × List Byte × σ)
  | 0, s, b, index => if index < b.length then none else some (none, b, s)
  | fuel + 1, s, b, index =>
    if index < b.length then
      let out := R.Read s (b.drop index)
      let b1 := b.take index ++ store (b.drop index) out.1.data
      match out.1.err with
      | some e => some (some e, b1, out.2)
      | none => ReadAllFrom R fuel out.2 b1 (index + out.1.n)
    else some (none, b, s)

/-- Go `ReadAll(r, b)`: the loop started at `index := 0`. -/
def ReadAll {σ : Type} (R : Reader σ) (fuel : Nat) (s : σ) (b : List Byte) :
    Option (Option Error × List Byte × σ) :=
  ReadAllFrom R fuel s b 0

/-- Everything observable after a call of `ReadMessage`: what it returned (or that it
panicked), the contents of the scratch slice `c`, and the collaborator states. -/
structure ReadMessageResult (σ α : Type) where
  out : Outcome (Option (List Byte) × Option Error)
  c : List Byte
  r : σ
  a : α

/-- Go `ReadMessage(r, a, c, max)`. `none` when one of the two `ReadAll` loops did not
end within `fuel` calls of `Read`. -/
def ReadMessage {σ α : Type} (R : Reader σ) (A : Allocator α) (fuel : Nat)
    (r : σ) (a : α) (c : List Byte) (max : Int) : Option (ReadMessageResult σ α) :=
  if c.length ≠ 3 then
    some ⟨Outcome.returned (none, some Error.ErrPrefixBufferSize), c, r, a⟩
  else
    match ReadAll R fuel r c with
    | none => none
    | some (some err, c1, r1) => some ⟨Outcome.returned (none, some err), c1, r1, a⟩
    | some (none, c1, r1) =>
      match ParsePrefix c1 with
      | none => some ⟨Outcome.panicked, c1, r1, a⟩
      | some l =>
        if l > max ∨ l > MaxLegalSize ∨ l ≤ 0 then
          some ⟨Outcome.returned (none, some Error.ErrMsgSize), c1, r1, a⟩
        else
          match A.Allocate a l l with
          | (Outcome.panicked, a1) => some ⟨Outcome.panicked, c1, r1, a1⟩
          | (Outcome.returned data, a1) =>
            match ReadAll R fuel r1 (data.getD []) with
            | none => none
            | some (err, d1, r2) =>
              some ⟨Outcome.returned (data.map (fun _ => d1), err), c1, r2, a1⟩

/-- Everything observable after a call of `WriteMessage`: what it returned (or that
it panicked), the contents of the scratch slice `c`, and the writer state. -/
structure WriteMessageResult (τ : Type) where
  out : Outcome (Option Error)
  c : List Byte
  w : τ

/-- Go `WriteMessage(w, m, c, max)`. The counts returned by `Write` are discarded, as in
the source (`_, err := w.Write(..)`). -/
def WriteMessage {τ : Type} (W : Writer τ) (w : τ) (m c : List Byte) (max : Int) :
    WriteMessageResult τ :=
  if c.length ≠ 3 then ⟨Outcome.returned (some Error.ErrPrefixBufferSize), c, w⟩
  else if (m.length : Int) > max ∨ (m.length : Int) > MaxLegalSize ∨ (m.length : Int) ≤ 0 then
    ⟨Outcome.returned (some Error.ErrMsgSize), c, w⟩
  else
    match WritePrefix c (m.length : Int) with
    | none => ⟨Outcome.panicked, c, w⟩
    | some c1 =>
      match W.Write w c1 with
      | ((_, some err), w1) => ⟨Outcome.returned (some err), c1, w1⟩
      | ((_, none), w1) =>
        match W.Write w1 m with
        | ((_, err), w2) => ⟨Outcome.returned err, c1, w2⟩


/-! ## Environment models used to state the claims -/

/-- An in-memory byte source, as `bytes.Reader` (optionally behind a wrapper giving
short reads, as `iotest.OneByteReader`): `data` are the bytes not yet delivered,
`chunks` bounds the size of the coming reads (one entry per call; once used up a
read delivers all it can), and `eof` is the error returned once `data` is empty. -/
structure Stream where
  data : List Byte
  chunks : List Nat
  eof : Error
  deriving DecidableEq, Repr

/-- The `Read` method of `Stream`: at end of data `0, eof`; otherwise the next
`min(chunk, len(p), len(data))` bytes, with a nil error. -/
def Stream.Read (s : Stream) (p : List Byte) : ReadReturn × Stream :=
  match s.data with
  | [] => (⟨0, [], some s.eof⟩, s)
  | _ :: _ =>
    let k := match s.chunks with
      | [] => p.length
      | k :: _ => min k p.length
    let n := min k s.data.length
    (⟨n, s.data.take n, none⟩, ⟨s.data.drop n, s.chunks.tail, s.eof⟩)

/-- The reader whose state is a `Stream`. -/
def streamReader : Reader Stream := ⟨Stream.Read⟩

/-- An in-memory sink that accepts every write, as `bytes.Buffer`: the state is all
bytes received so far. -/
def bufferWriter : Writer (List Byte) where
  Write := fun s p => ((Int.ofNat p.length, none), s ++ p)

/-- A writer observed: next to the state of `W` the slices handed to `Write`, in call
order. -/
def Writer.recording {τ : Type} (W : Writer τ) : Writer (τ × List (List Byte)) where
  Write := fun s p => ((W.Write s.1 p).1, ((W.Write s.1 p).2, s.2 ++ [p]))

/-- A reader observed: next to the state of `R`, for every `Read` call made, the
length of the slice passed and what the call returned, in call order. -/
def Reader.recording {σ : Type} (R : Reader σ) : Reader (σ × List (Nat × ReadReturn)) where
  Read := fun s p => ((R.Read s.1 p).1, ((R.Read s.1 p).2, s.2 ++ [(p.length, (R.Read s.1 p).1)]))

/-- An allocator observed: next to the state of `A` the `(len, cap)` arguments of
every `Allocate` call, in call order. -/
def Allocator.recording {α : Type} (A : Allocator α) : Allocator (α × List (Int × Int)) where
  Allocate := fun s len cap =>
    ((A.Allocate s.1 len cap).1, ((A.Allocate s.1 len cap).2, s.2 ++ [(len, cap)]))

/-- The entries of a read log whose call returned a nil error. -/
def okReads (log : List (Nat × ReadReturn)) : List (Nat × ReadReturn) :=
  log.filter (fun e => e.2.err.isNone)

/-- Number of bytes the successful calls of a read log reported. -/
def consumed (log : List (Nat × ReadReturn)) : Nat :=
  ((okReads log).map (fun e => e.2.n)).sum

/-- The bytes the successful calls of a read log delivered, in call order: of each
call the first `n` bytes it stored. -/
def delivered (log : List (Nat × ReadReturn)) : List Byte :=
  ((okReads log).map (fun e => e.2.data.take e.2.n)).flatten

/-- The `MockWriter` of `encoding_test.go`: `Write` returns the current `I` and `E`
and then runs the hook `U`; the hook is given by the values it assigns to `I` and
`E` (`none` for a nil hook). -/
structure MockWriter where
  I : Int
  E : Option Error
  U : Option (Int × Option Error)
  deriving DecidableEq, Repr

/-- The writer whose state is a `MockWriter`. -/
def mockWriter : Writer MockWriter where
  Write := fun m _ =>
    ((m.I, m.E), match m.U with
      | none => m
      | some u => { m with I := u.1, E := u.2 })

/-! ## The connection wrapper of `conn.go` -/

/-- The constant `DefaultMaxMsgSize = 256`. -/
def DefaultMaxMsgSize : Int := 256

/-- The `Flusher` interface of `conn.go` with collaborator state `φ`: `Flush()` returns
an error or nil. -/
structure Flusher (φ : Type) where
  Flush : φ → Option Error × φ

/-- The interface `io.Closer` with collaborator state `κ`: `Close()` returns an error or
nil. -/
structure Closer (κ : Type) where
  Close : κ → Option Error × κ

/-- A byte array of type `[3]byte`, the type of the fields `rp` and `wp`. -/
structure Scratch where
  b0 : Byte
  b1 : Byte
  b2 : Byte
  deriving DecidableEq, Repr

/-- The slice `x[:]` of a `[3]byte` array `x`: its three bytes. -/
def Scratch.slice (x : Scratch) : List Byte := [x.b0, x.b1, x.b2]

/-- The array `x` after a callee has stored through the slice `x[:]`, given the slice
contents `c` the callee left: the three bytes of `c`. (A slice of another length
cannot come back; the array is then kept.) -/
def Scratch.assign (x : Scratch) (c : List Byte) : Scratch :=
  match c with
  | [y0, y1, y2] => ⟨y0, y1, y2⟩
  | _ => x

/-- An allocator without state of its own, run next to a state of type `α` that it
leaves alone. -/
def Allocator.onState (A : Allocator Unit) (α : Type) : Allocator α where
  Allocate := fun s len cap => ((A.Allocate () len cap).1, s)

/-- The struct `MsgConn`. `Reader` and `Writer` are the required collaborators
("Reader and Writer are required, Closer and Flusher are optional"); `Allocator`,
`Closer` and `Flusher` may be nil (`none`). The fields hold references: the states of
the objects behind them are kept outside the struct, in an `Env`. -/
structure MsgConn (σ τ α κ φ : Type) where
  Allocator : Option (Msgconn.Allocator α)
  MaxInSize : Int
  MaxOutSize : Int
  Reader : Msgconn.Reader σ
  Writer : Msgconn.Writer τ
  Closer : Option (Msgconn.Closer κ)
  Flusher : Option (Msgconn.Flusher φ)
  rp : Scratch
  wp : Scratch

/-- The states of the objects behind the fields of a `MsgConn`: reader, writer,
allocator, closer and flusher. As a program state an `Env` has one object per field;
program states in which two fields hold the same object are described by a `Layout`,
which gives the `Env` a method call finds. -/
structure Env (σ τ α κ φ : Type) where
  r : σ
  w : τ
  a : α
  cl : κ
  fl : φ

/-- Go `(mc *MsgConn) maxInSize()`. -/
def MsgConn.maxInSize {σ τ α κ φ : Type} (mc : MsgConn σ τ α κ φ) : Int :=
  if mc.MaxInSize ≤ 0 then DefaultMaxMsgSize else mc.MaxInSize

/-- Go `(mc *MsgConn) maxOutSize()`. -/
def MsgConn.maxOutSize {σ τ α κ φ : Type} (mc : MsgConn σ τ α κ φ) : Int :=
  if mc.MaxOutSize ≤ 0 then DefaultMaxMsgSize else mc.MaxOutSize

/-- Go `(mc *MsgConn) GetAllocator()`: `MakeAllocator` when the field is nil. -/
def MsgConn.GetAllocator {σ τ α κ φ : Type} (mc : MsgConn σ τ α κ φ) : Msgconn.Allocator α :=
  match mc.Allocator with
  | none => MakeAllocator.onState α
  | some A => A

/-- Go `(mc *MsgConn) ReadMessage()`:
`ReadMessage(mc.Reader, mc.GetAllocator(), mc.rp[:], mc.maxInSize())`. Returns what the
call returned (or that it panicked), the struct and the collaborator states
afterwards; `none` when a `ReadAll` loop did not end within `fuel` calls of `Read`. -/
def MsgConn.ReadMessage {σ τ α κ φ : Type} (mc : MsgConn σ τ α κ φ) (fuel : Nat)
    (env : Env σ τ α κ φ) :
    Option (Outcome (Option (List Byte) × Option Error) × MsgConn σ τ α κ φ × Env σ τ α κ φ) :=
  match Msgconn.ReadMessage mc.Reader mc.GetAllocator fuel env.r env.a mc.rp.slice
      mc.maxInSize with
  | none => none
  | some res =>
    some (res.out, { mc with rp := mc.rp.assign res.c }, { env with r := res.r, a := res.a })

/-- Go `(mc *MsgConn) WriteMessage(msg, flush)`:
`if err := WriteMessage(mc.Writer, msg, mc.wp[:], mc.maxOutSize()); err != nil { return err }`,
`if !flush || mc.Flusher == nil { return nil }`, `return mc.Flusher.Flush()`. -/
def MsgConn.WriteMessage {σ τ α κ φ : Type} (mc : MsgConn σ τ α κ φ) (msg : List Byte)
    (flush : Bool) (env : Env σ τ α κ φ) :
    Outcome (Option Error) × MsgConn σ τ α κ φ × Env σ τ α κ φ :=
  let res := Msgconn.WriteMessage mc.Writer env.w msg mc.wp.slice mc.maxOutSize
  let mc1 : MsgConn σ τ α κ φ := { mc with wp := mc.wp.assign res.c }
  let env1 : Env σ τ α κ φ := { env with w := res.w }
  match res.out with
  | Outcome.panicked => (Outcome.panicked, mc1, env1)
  | Outcome.returned (some err) => (Outcome.returned (some err), mc1, env1)
  | Outcome.returned none =>
    match flush, mc.Flusher with
    | true, some F => (Outcome.returned (F.Flush env1.fl).1, mc1, { env1 with fl := (F.Flush env1.fl).2 })
    | _, _ => (Outcome.returned none, mc1, env1)

/-- Go `(mc *MsgConn) Flush()`: nil when no `Flusher` is set, else `mc.Flusher.Flush()`. -/
def MsgConn.Flush {σ τ α κ φ : Type} (mc : MsgConn σ τ α κ φ) (env : Env σ τ α κ φ) :
    Option Error × Env σ τ α κ φ :=
  match mc.Flusher with
  | none => (none, env)
  | some F => ((F.Flush env.fl).1, { env with fl := (F.Flush env.fl).2 })

/-- Go `(mc *MsgConn) Close()`:
`err := mc.Flush(); if mc.Closer == nil { return err }`,
`if err != nil { mc.Closer.Close(); return err }`, `return mc.Closer.Close()`. -/
def MsgConn.Close {σ τ α κ φ : Type} (mc : MsgConn σ τ α κ φ) (env : Env σ τ α κ φ) :
    Option Error × Env σ τ α κ φ :=
  let flushed := mc.Flush env
  match mc.Closer with
  | none => flushed
  | some C =>
    match flushed.1 with
    | some err => (some err, { flushed.2 with cl := (C.Close flushed.2.cl).2 })
    | none => ((C.Close flushed.2.cl).1, { flushed.2 with cl := (C.Close flushed.2.cl).2 })

/-- A flusher observed: next to the state of `F` the result of every `Flush` call, in
call order. -/
def Flusher.recording {φ : Type} (F : Flusher φ) : Flusher (φ × List (Option Error)) where
  Flush := fun s => ((F.Flush s.1).1, ((F.Flush s.1).2, s.2 ++ [(F.Flush s.1).1]))

/-- A closer observed: next to the state of `C` the result of every `Close` call, in
call order. -/
def Closer.recording {κ : Type} (C : Closer κ) : Closer (κ × List (Option Error)) where
  Close := fun s => ((C.Close s.1).1, ((C.Close s.1).2, s.2 ++ [(C.Close s.1).1]))

/-- The test doubles `flusher{E}` and `closer{E}` of `conn_test.go`: the method returns
the field `E`, which is the state. -/
def testFlusher : Flusher (Option Error) where
  Flush := fun e => (e, e)

/-- The test double `closer{E}` of `conn_test.go`. -/
def testCloser : Closer (Option Error) where
  Close := fun e => (e, e)

/-- A `MsgConn` whose optional `Closer` and `Flusher` are observed: every `Close` and
`Flush` call is logged. -/
def MsgConn.observed {σ τ α κ φ : Type} (mc : MsgConn σ τ α κ φ) :
    MsgConn σ τ α (κ × List (Option Error)) (φ × List (Option Error)) where
  Allocator := mc.Allocator
  MaxInSize := mc.MaxInSize
  MaxOutSize := mc.MaxOutSize
  Reader := mc.Reader
  Writer := mc.Writer
  Closer := mc.Closer.map Closer.recording
  Flusher := mc.Flusher.map Flusher.recording
  rp := mc.rp
  wp := mc.wp

/-- The zero value `MsgConn{}` with the two required collaborators set: no limits, no
allocator, no closer, no flusher, zeroed scratch arrays. -/
def MsgConn.zero {σ τ : Type} (α κ φ : Type) (R : Msgconn.Reader σ) (W : Msgconn.Writer τ) :
    MsgConn σ τ α κ φ where
  Allocator := none
  MaxInSize := 0
  MaxOutSize := 0
  Reader := R
  Writer := W
  Closer := none
  Flusher := none
  rp := ⟨0, 0, 0⟩
  wp := ⟨0, 0, 0⟩

/-- One observed `Write` call: the slice offered, the count reported and the error
returned. -/
structure WriteCall where
  p : List Byte
  n : Int
  err : Option Error
  deriving DecidableEq, Repr

/-- A writer traced: next to the state of `W`, every `Write` call with what it
returned, in call order. -/
def Writer.tracing {τ : Type} (W : Writer τ) : Writer (τ × List WriteCall) where
  Write := fun s p =>
    ((W.Write s.1 p).1, ((W.Write s.1 p).2, s.2 ++ [⟨p, (W.Write s.1 p).1.1, (W.Write s.1 p).1.2⟩]))

/-- The bytes a traced sink accepted: of each call the first `n` bytes offered, `n`
being the count the call reported. -/
def accepted (log : List WriteCall) : List Byte :=
  (log.map (fun e => e.p.take e.n.toNat)).flatten

/-- A reader that fails at once with the error `e` on every call, as
`iotest.ErrReader(e)`. -/
def errReader (e : Error) : Reader Unit where
  Read := fun s _ => (⟨0, [], some e⟩, s)

/-- A reader that reports 0 bytes and a nil error on every call. -/
def stallReader : Reader Unit where
  Read := fun s _ => (⟨0, [], none⟩, s)

/-- An in-memory source that hands out one byte per call and `io.EOF` at the end, as
`iotest.OneByteReader(bytes.NewReader(data))`; the state is the data left. -/
def oneByteReader : Reader (List Byte) where
  Read := fun s p =>
    match s, p with
    | [], _ => (⟨0, [], some Error.EOF⟩, [])
    | x :: rest, [] => (⟨0, [], none⟩, x :: rest)
    | x :: rest, _ :: _ => (⟨1, [x], none⟩, rest)

/-- Where the objects behind the fields of a `MsgConn` live in the program state `ω`.
The fields hold references, and two fields may refer to one and the same object ("the
Reader, Writer and Closer fields can all be fulfilled by the same net.Conn instance"):
`view` gives the state of the object behind each field, and `putR`, `putW`, `putA` and
`putFl` store the state a call left in the object behind `Reader`, `Writer`,
`Allocator` and `Flusher`. When two fields hold the same object, their views agree and
a store through one is seen through the other. -/
structure Layout (ω σ τ α κ φ : Type) where
  view : ω → Env σ τ α κ φ
  putR : ω → σ → ω
  putW : ω → τ → ω
  putA : ω → α → ω
  putFl : ω → φ → ω

/-- The layout in which the five fields hold five distinct objects: the program state
is an `Env`, one component per object. -/
def Layout.separate (σ τ α κ φ : Type) : Layout (Env σ τ α κ φ) σ τ α κ φ where
  view := fun env => env
  putR := fun env r => { env with r := r }
  putW := fun env w => { env with w := w }
  putA := fun env a => { env with a := a }
  putFl := fun env f => { env with fl := f }

/-- The layout in which `Reader` and `Writer` hold one and the same object, as in
`buf := new(bytes.Buffer); mc := &MsgConn{Reader: buf, Writer: buf}`: the state of
that object is the program state, and there is no allocator, closer or flusher
state. -/
def Layout.sameObject (σ : Type) : Layout σ σ σ Unit Unit Unit where
  view := fun s => ⟨s, s, (), (), ()⟩
  putR := fun _ s => s
  putW := fun _ s => s
  putA := fun s _ => s
  putFl := fun s _ => s

/-- The `Read` method of `bytes.Buffer`, the state being the unread bytes: on an empty
buffer `0, io.EOF` (`0, nil` when `len(p) == 0`), otherwise the next
`min(len(p), len(unread))` bytes with a nil error. With `bufferWriter`, whose `Write`
appends to the same state, it is one `bytes.Buffer`. -/
def bufferReader : Reader (List Byte) where
  Read := fun s p =>
    match s with
    | [] => (⟨0, [], if p.length = 0 then none else some Error.EOF⟩, [])
    | _ :: _ =>
      (⟨min p.length s.length, s.take (min p.length s.length), none⟩,
        s.drop (min p.length s.length))

/-- Go `(mc *MsgConn) ReadMessage()` run in a program state `x` laid out by `L`:
`ReadMessage(mc.Reader, mc.GetAllocator(), mc.rp[:], mc.maxInSize())` on the objects
behind `Reader` and `Allocator` as found in `x`, whose states are stored back
afterwards. (The allocator is an object of its own: no `Read` reaches it.) With
`Layout.separate` this is `MsgConn.ReadMessage`. -/
def MsgConn.ReadMessageIn {ω σ τ α κ φ : Type} (L : Layout ω σ τ α κ φ)
    (mc : MsgConn σ τ α κ φ) (fuel : Nat) (x : ω) :
    Option (Outcome (Option (List Byte) × Option Error) × MsgConn σ τ α κ φ × ω) :=
  match Msgconn.ReadMessage mc.Reader mc.GetAllocator fuel (L.view x).r (L.view x).a
      mc.rp.slice mc.maxInSize with
  | none => none
  | some res =>
    some (res.out, { mc with rp := mc.rp.assign res.c }, L.putA (L.putR x res.r) res.a)

/-- Go `(mc *MsgConn) WriteMessage(msg, flush)` run in a program state `x` laid out by
`L`: the package function on the object behind `Writer` as found in `x`, whose state
is stored back, and then, on success with `flush` and a `Flusher` set,
`mc.Flusher.Flush()` on the object behind `Flusher` as found after the writes. With
`Layout.separate` this is `MsgConn.WriteMessage`. -/
def MsgConn.WriteMessageIn {ω σ τ α κ φ : Type} (L : Layout ω σ τ α κ φ)
    (mc : MsgConn σ τ α κ φ) (msg : List Byte) (flush : Bool) (x : ω) :
    Outcome (Option Error) × MsgConn σ τ α κ φ × ω :=
  let res := Msgconn.WriteMessage mc.Writer (L.view x).w msg mc.wp.slice mc.maxOutSize
  let mc1 : MsgConn σ τ α κ φ := { mc with wp := mc.wp.assign res.c }
  let x1 : ω := L.putW x res.w
  match res.out with
  | Outcome.panicked => (Outcome.panicked, mc1, x1)
  | Outcome.returned (some err) => (Outcome.returned (some err), mc1, x1)
  | Outcome.returned none =>
    match flush, mc.Flusher with
    | true, some F =>
      (Outcome.returned (F.Flush (L.view x1).fl).1, mc1, L.putFl x1 (F.Flush (L.view x1).fl).2)
    | _, _ => (Outcome.returned none, mc1, x1)

/-! ## The prefix codec -/

theorem or3_eq_add (x y z : Nat) (hx : x < 256) (hy : y < 256) (hz : z < 256) :
    x ||| ((y <<< 8) % 2 ^ 32) ||| ((z <<< 16) % 2 ^ 32) = x + 256 * y + 65536 * z := by
  have h1 : (y <<< 8) % 2 ^ 32 = 2 ^ 8 * y := by
    rw [Nat.shiftLeft_eq]; omega
  have h2 : (z <<< 16) % 2 ^ 32 = 2 ^ 16 * z := by
    rw [Nat.shiftLeft_eq]; omega
  have h3 : x ||| 2 ^ 8 * y = 2 ^ 8 * y + x := by
    rw [Nat.lor_comm]; exact (Nat.mul_add_lt_is_or (by omega) y).symm
  have h4 : (2 ^ 8 * y + x) ||| 2 ^ 16 * z = 2 ^ 16 * z + (2 ^ 8 * y + x) := by
    rw [Nat.lor_comm]; exact (Nat.mul_add_lt_is_or (by omega) z).symm
  rw [h1, h2, h3, h4]; omega

theorem ParsePrefix_cons3 (b0 b1 b2 : Byte) (rest : List Byte) :
    ParsePrefix (b0 :: b1 :: b2 :: rest)
      = some (Int.ofNat (b0.val + 256 * b1.val + 65536 * b2.val)) := by
  simp only [ParsePrefix, List.getElem?_cons_zero, List.getElem?_cons_succ]
  rw [or3_eq_add _ _ _ b0.isLt b1.isLt b2.isLt]

theorem WritePrefix_cons3 (b0 b1 b2 : Byte) (rest : List Byte) (l : Int) :
    WritePrefix (b0 :: b1 :: b2 :: rest) l
      = some (byte (l % 2 ^ 32).toNat :: byte ((l % 2 ^ 32).toNat >>> 8)
          :: byte ((l % 2 ^ 32).toNat >>> 16) :: rest) := by
  simp [WritePrefix]

theorem length_eq_three {β : Type} (b : List β) (h : b.length = 3) :
    ∃ x y z, b = [x, y, z] := by
  match b, h with
  | [x, y, z], _ => exact ⟨x, y, z, rfl⟩

/-- The value held by the three bytes `WritePrefix` stores is `uint32(l)` cut to 24
bits. -/
theorem ParsePrefix_WritePrefix_bytes (v : Nat) (rest : List Byte) :
    ParsePrefix (byte v :: byte (v >>> 8) :: byte (v >>> 16) :: rest)
      = some (Int.ofNat (v % 2 ^ 24)) := by
  rw [ParsePrefix_cons3]
  simp only [byte, Nat.shiftRight_eq_div_pow]
  congr 2
  omega

/-! ## The full-transfer loop -/

theorem store_length (p d : List Byte) : (store p d).length = p.length := by
  simp only [store, List.length_take, List.length_append, List.length_drop]
  omega

theorem store_of_le (p d : List Byte) (h : d.length ≤ p.length) :
    store p d = d ++ p.drop d.length := by
  unfold store
  apply List.take_of_length_le
  simp only [List.length_append, List.length_drop]
  omega

theorem store_nil (p : List Byte) : store p [] = p := by
  simp [store]

theorem ReadAllFrom_length {σ : Type} (R : Reader σ) (fuel : Nat) :
    ∀ (s : σ) (b : List Byte) (index : Nat) (err : Option Error) (b1 : List Byte) (s1 : σ),
      ReadAllFrom R fuel s b index = some (err, b1, s1) → b1.length = b.length := by
  induction fuel with
  | zero =>
    intro s b index err b1 s1 h
    simp only [ReadAllFrom] at h
    split at h
    · cases h
    · cases h; rfl
  | succ fuel ih =>
    intro s b index err b1 s1 h
    simp only [ReadAllFrom] at h
    split at h
    · rename_i hlt
      have hlen : (b.take index ++ store (b.drop index) (R.Read s (b.drop index)).1.data).length
          = b.length := by
        simp only [List.length_append, List.length_take, store_length, List.length_drop]
        omega
      split at h
      · cases h; exact hlen
      · rw [ih _ _ _ _ _ _ h, hlen]
    · cases h; rfl

theorem ReadAll_length {σ : Type} (R : Reader σ) (fuel : Nat) (s : σ) (b : List Byte)
    (err : Option Error) (b1 : List Byte) (s1 : σ)
    (h : ReadAll R fuel s b = some (err, b1, s1)) : b1.length = b.length :=
  ReadAllFrom_length R fuel s b 0 err b1 s1 h

theorem ReadAllFrom_full {σ : Type} (R : Reader σ) (fuel : Nat) (s : σ) (b : List Byte)
    (index : Nat) (h : b.length ≤ index) :
    ReadAllFrom R fuel s b index = some (none, b, s) := by
  cases fuel <;> simp [ReadAllFrom, Nat.not_lt.mpr h]

/-- One step of the loop when the `Read` call returns a nil error. -/
theorem ReadAllFrom_step_ok {σ : Type} (R : Reader σ) (fuel : Nat) (s : σ) (b : List Byte)
    (index : Nat) (hlt : index < b.length) (herr : (R.Read s (b.drop index)).1.err = none) :
    ReadAllFrom R (fuel + 1) s b index =
      ReadAllFrom R fuel (R.Read s (b.drop index)).2
        (b.take index ++ store (b.drop index) (R.Read s (b.drop index)).1.data)
        (index + (R.Read s (b.drop index)).1.n) := by
  rw [ReadAllFrom, if_pos hlt]
  simp only [herr]

/-- One step of the loop when the `Read` call returns an error. -/
theorem ReadAllFrom_step_err {σ : Type} (R : Reader σ) (fuel : Nat) (s : σ) (b : List Byte)
    (index : Nat) (e : Error) (hlt : index < b.length)
    (herr : (R.Read s (b.drop index)).1.err = some e) :
    ReadAllFrom R (fuel + 1) s b index =
      some (some e, b.take index ++ store (b.drop index) (R.Read s (b.drop index)).1.data,
        (R.Read s (b.drop index)).2) := by
  rw [ReadAllFrom, if_pos hlt]
  simp only [herr]

theorem Stream.Read_nil (s : Stream) (p : List Byte) (h : s.data = []) :
    s.Read p = (⟨0, [], some s.eof⟩, s) := by
  simp [Stream.Read, h]

theorem Stream.Read_some (s : Stream) (p : List Byte) (h : s.data ≠ []) (hp : p ≠ [])
    (hch : ∀ k ∈ s.chunks, 1 ≤ k) :
    ∃ n, 1 ≤ n ∧ n ≤ p.length ∧ n ≤ s.data.length ∧
      s.Read p = (⟨n, s.data.take n, none⟩, ⟨s.data.drop n, s.chunks.tail, s.eof⟩) := by
  obtain ⟨data, chunks, eof⟩ := s
  have hd : 0 < data.length := List.length_pos.mpr h
  have hpl : 0 < p.length := List.length_pos.mpr hp
  cases data with
  | nil => exact absurd rfl h
  | cons y ys =>
    cases chunks with
    | nil =>
      refine ⟨min p.length (y :: ys).length, ?_, ?_, ?_, rfl⟩ <;>
        simp only [le_min_iff, min_le_iff, List.length_cons] <;> omega
    | cons k ks =>
      have hk : 1 ≤ k := hch k (List.mem_cons_self _ _)
      refine ⟨min (min k p.length) (y :: ys).length, ?_, ?_, ?_, rfl⟩ <;>
        simp only [le_min_iff, min_le_iff, List.length_cons] <;> omega

theorem take_append_take_drop {β : Type} (l : List β) (n m : Nat) (h : n ≤ m) :
    l.take n ++ (l.drop n).take (m - n) = l.take m := by
  conv_rhs => rw [show m = n + (m - n) by omega]
  rw [List.take_add]

/-- Running `ReadAll` on a `Stream` whose scheduled chunk sizes are all positive: the
bytes wanted are taken from the front of the data in order; if the data runs out
first, the end-of-data error is returned with what was delivered left in place. -/
theorem stream_ReadAllFrom (fuel : Nat) :
    ∀ (s : Stream) (pre suf : List Byte), (∀ k ∈ s.chunks, 1 ≤ k) → suf.length ≤ fuel →
      ∃ j, ReadAllFrom streamReader fuel s (pre ++ suf) pre.length =
        if suf.length ≤ s.data.length then
          some (none, pre ++ s.data.take suf.length,
            ⟨s.data.drop suf.length, s.chunks.drop j, s.eof⟩)
        else
          some (some s.eof, pre ++ s.data ++ suf.drop s.data.length,
            ⟨[], s.chunks.drop j, s.eof⟩) := by
  induction fuel with
  | zero =>
    intro s pre suf _ hf
    have hs : suf = [] := List.length_eq_zero.mp (Nat.le_zero.mp hf)
    subst hs
    exact ⟨0, by simp [ReadAllFrom]⟩
  | succ fuel ih =>
    intro s pre suf hch hf
    by_cases hsuf : suf = []
    · subst hsuf
      exact ⟨0, by simp [ReadAllFrom]⟩
    have hsl : 0 < suf.length := List.length_pos.mpr hsuf
    have hlt : pre.length < (pre ++ suf).length := by
      simp only [List.length_append]; omega
    by_cases hdata : s.data = []
    · refine ⟨0, ?_⟩
      have herr : (streamReader.Read s ((pre ++ suf).drop pre.length)).1.err = some s.eof := by
        simp [streamReader, Stream.Read_nil s _ hdata]
      rw [ReadAllFrom_step_err streamReader fuel s _ _ s.eof hlt herr]
      simp only [streamReader, Stream.Read_nil s _ hdata, store_nil, List.take_left,
        List.drop_left, hdata, List.length_nil, List.drop_zero, List.append_nil]
      rw [if_neg (by omega)]
      obtain ⟨data, chunks, eof⟩ := s
      simp only at hdata
      subst hdata
      rfl
    · obtain ⟨n, hn1, hn2, hn3, hread⟩ := Stream.Read_some s suf hdata hsuf hch
      have hread3 : streamReader.Read s suf =
          (⟨n, s.data.take n, none⟩, ⟨s.data.drop n, s.chunks.tail, s.eof⟩) := hread
      have hread2 : streamReader.Read s ((pre ++ suf).drop pre.length) =
          (⟨n, s.data.take n, none⟩, ⟨s.data.drop n, s.chunks.tail, s.eof⟩) := by
        rw [List.drop_left]; exact hread
      have hst : store suf (s.data.take n) = s.data.take n ++ suf.drop n := by
        rw [store_of_le _ _ (by simp only [List.length_take]; omega)]
        simp only [List.length_take, Nat.min_eq_left hn3]
      rw [ReadAllFrom_step_ok streamReader fuel s _ _ hlt (by rw [hread2])]
      simp only [List.take_left, List.drop_left, hread3, hst]
      have hch1 : ∀ k ∈ (⟨s.data.drop n, s.chunks.tail, s.eof⟩ : Stream).chunks, 1 ≤ k :=
        fun k hk => hch k (List.mem_of_mem_tail hk)
      have hlen1 : (suf.drop n).length ≤ fuel := by
        simp only [List.length_drop]; omega
      obtain ⟨j, hj⟩ := ih ⟨s.data.drop n, s.chunks.tail, s.eof⟩ (pre ++ s.data.take n)
        (suf.drop n) hch1 hlen1
      refine ⟨j + 1, ?_⟩
      have hidx : pre.length + n = (pre ++ s.data.take n).length := by
        simp only [List.length_append, List.length_take]; omega
      rw [← List.append_assoc, hidx, hj]
      simp only [List.length_drop, List.drop_drop, List.append_assoc]
      by_cases hc : suf.length ≤ s.data.length
      · rw [if_pos (by omega), if_pos hc, take_append_take_drop _ _ _ (by omega)]
        have e2 : n + (suf.length - n) = suf.length := by omega
        rw [e2]
        simp [List.drop_tail, List.tail_drop]
      · rw [if_neg (by omega), if_neg hc, ← List.append_assoc (List.take n s.data),
          List.take_append_drop]
        have e2 : n + (s.data.length - n) = s.data.length := by omega
        rw [e2]
        simp [List.drop_tail, List.tail_drop]

theorem stream_ReadAll (fuel : Nat) (s : Stream) (b : List Byte)
    (hch : ∀ k ∈ s.chunks, 1 ≤ k) (hf : b.length ≤ fuel) :
    ∃ j, ReadAll streamReader fuel s b =
      if b.length ≤ s.data.length then
        some (none, s.data.take b.length, ⟨s.data.drop b.length, s.chunks.drop j, s.eof⟩)
      else
        some (some s.eof, s.data ++ b.drop s.data.length, ⟨[], s.chunks.drop j, s.eof⟩) := by
  obtain ⟨j, hj⟩ := stream_ReadAllFrom fuel s [] b hch hf
  exact ⟨j, by simpa [ReadAll] using hj⟩

/-! ## The message writer -/

theorem uint32_length (n : Nat) (h : (n : Int) ≤ MaxLegalSize) :
    ((n : Int) % 2 ^ 32).toNat = n := by
  have h1 : (n : Int) < 2 ^ 32 := by
    simp only [MaxLegalSize] at h; omega
  rw [Int.emod_eq_of_lt (by omega) h1]
  exact Int.toNat_ofNat n

/-- Unfolding of `WriteMessage` once its two guards are passed: the prefix is encoded
into `c`, handed to `Write`, and the payload follows only if that call returned nil. -/
theorem WriteMessage_pass {τ : Type} (W : Writer τ) (w : τ) (m c : List Byte) (max : Int)
    (hc : c.length = 3)
    (hsz : ¬((m.length : Int) > max ∨ (m.length : Int) > MaxLegalSize ∨ (m.length : Int) ≤ 0)) :
    ∃ c1, WritePrefix c (m.length : Int) = some c1 ∧
      c1 = [byte m.length, byte (m.length / 256), byte (m.length / 65536)] ∧
      WriteMessage W w m c max =
        match (W.Write w c1).1.2 with
        | some err => ⟨Outcome.returned (some err), c1, (W.Write w c1).2⟩
        | none => ⟨Outcome.returned (W.Write (W.Write w c1).2 m).1.2, c1,
            (W.Write (W.Write w c1).2 m).2⟩ := by
  obtain ⟨x, y, z, rfl⟩ := length_eq_three c hc
  have hl : (m.length : Int) ≤ MaxLegalSize := by omega
  refine ⟨_, WritePrefix_cons3 x y z [] _, ?_, ?_⟩
  · rw [uint32_length _ hl]
    simp only [Nat.shiftRight_eq_div_pow]
  · unfold WriteMessage
    rw [if_neg (by simp), if_neg hsz, WritePrefix_cons3]
    simp only
    rcases h1 : W.Write w _ with ⟨⟨n1, e1⟩, w1⟩
    cases e1 with
    | some err => rfl
    | none => simp only

/-- Claim C2. For every integer `n` with `0 <= n < 2^24` and every 3-byte buffer `b`,
`WritePrefix(b, n)` stores three bytes (without panicking) from which `ParsePrefix`
returns `n`. -/
theorem C2_ParsePrefix_WritePrefix (n : Int) (b : List Byte)
    (h0 : 0 ≤ n) (h1 : n < 2 ^ 24) (hb : b.length = 3) :
    ∃ b1, WritePrefix b n = some b1 ∧ b1.length = 3 ∧ ParsePrefix b1 = some n := by
  obtain ⟨x, y, z, rfl⟩ := length_eq_three b hb
  refine ⟨_, WritePrefix_cons3 x y z [] n, rfl, ?_⟩
  rw [ParsePrefix_WritePrefix_bytes]
  congr 1
  have h2 : n % 2 ^ 32 = n := Int.emod_eq_of_lt h0 (by omega)
  rw [h2]
  have h3 : ((n.toNat % 2 ^ 24 : Nat) : Int) = n := by omega
  exact h3

/-- Instance of C2: writing 356 over `[0, 0, 255]` and parsing gives 356 back. -/
theorem C2_ParsePrefix_WritePrefix_witness :
    ∃ b1, WritePrefix [0, 0, 255] 356 = some b1 ∧ b1.length = 3 ∧ ParsePrefix b1 = some 356 :=
  C2_ParsePrefix_WritePrefix 356 [0, 0, 255] (by decide) (by decide) (by decide)

/-- Claim C3. For every payload `m` that `WriteMessage` accepts (3-byte scratch,
`0 < len(m) <= max`, `len(m) <= MaxLegalSize`) and every sink whose `Write` never
returns an error, `WriteMessage` returns nil and the slices handed to the sink are
exactly the three bytes `[len mod 256, (len / 256) mod 256, (len / 65536) mod 256]`
followed by `m`, and nothing else. -/
theorem C3_WriteMessage_wire_format {τ : Type} (W : Writer τ) (w : τ)
    (log : List (List Byte)) (m c : List Byte) (max : Int)
    (hc : c.length = 3) (hm : 0 < m.length) (hmax : (m.length : Int) ≤ max)
    (hlegal : (m.length : Int) ≤ MaxLegalSize)
    (hW : ∀ s p, (W.Write s p).1.2 = none) :
    (WriteMessage W.recording (w, log) m c max).out = Outcome.returned none ∧
    (WriteMessage W.recording (w, log) m c max).w.2 =
      log ++ [[byte m.length, byte (m.length / 256), byte (m.length / 65536)], m] ∧
    ((WriteMessage W.recording (w, log) m c max).w.2).flatten =
      log.flatten ++ (byte m.length :: byte (m.length / 256) :: byte (m.length / 65536) :: m) := by
  obtain ⟨c1, _, hc1, heq⟩ := WriteMessage_pass W.recording (w, log) m c max hc (by omega)
  rw [heq]
  subst hc1
  simp [Writer.recording, hW]

/-- Instance of C3: `"test"` written to an in-memory buffer puts
`[4,0,0,116,101,115,116]` on the wire. -/
theorem C3_WriteMessage_wire_format_witness :
    (WriteMessage bufferWriter.recording ([], []) [116, 101, 115, 116] [0, 0, 0] 4).out
      = Outcome.returned none ∧
    (WriteMessage bufferWriter.recording ([], []) [116, 101, 115, 116] [0, 0, 0] 4).w.2
      = [[4, 0, 0], [116, 101, 115, 116]] ∧
    ((WriteMessage bufferWriter.recording ([], []) [116, 101, 115, 116] [0, 0, 0] 4).w.2).flatten
      = [4, 0, 0, 116, 101, 115, 116] :=
  C3_WriteMessage_wire_format bufferWriter [] [] [116, 101, 115, 116] [0, 0, 0] 4
    (by decide) (by decide) (by decide) (by decide) (fun _ _ => rfl)

/-! ## The message reader -/

/-- The little-endian prefix of a length below `2^24` parses back to that length. -/
theorem ParsePrefix_encode (l : Nat) (hl : l < 2 ^ 24) (rest : List Byte) :
    ParsePrefix (byte l :: byte (l / 256) :: byte (l / 65536) :: rest) = some (l : Int) := by
  have h := ParsePrefix_WritePrefix_bytes l rest
  simp only [Nat.shiftRight_eq_div_pow] at h
  rw [show (2 : Nat) ^ 8 = 256 by norm_num, show (2 : Nat) ^ 16 = 65536 by norm_num] at h
  rw [h, Nat.mod_eq_of_lt hl]
  rfl

/-- What `ParsePrefix` returns is never negative and always below `2^24`. -/
theorem ParsePrefix_range (b : List Byte) (l : Int) (h : ParsePrefix b = some l) :
    0 ≤ l ∧ l < 2 ^ 24 := by
  match b, h with
  | b0 :: b1 :: b2 :: rest, h =>
    rw [ParsePrefix_cons3] at h
    have h0 := b0.isLt
    have h1 := b1.isLt
    have h2 := b2.isLt
    cases h
    constructor
    · exact Int.ofNat_nonneg _
    · simp only [Int.ofNat_eq_coe]
      omega

/-- A slice of at least three bytes can be parsed. -/
theorem ParsePrefix_isSome (b : List Byte) (h : 3 ≤ b.length) : ∃ l, ParsePrefix b = some l := by
  match b, h with
  | b0 :: b1 :: b2 :: rest, _ => exact ⟨_, ParsePrefix_cons3 b0 b1 b2 rest⟩

/-- Unfolding of `ReadMessage` once the scratch slice has length 3 and the prefix has
been read without error. -/
theorem ReadMessage_prefix_done {σ α : Type} (R : Reader σ) (A : Allocator α) (fuel : Nat)
    (r r1 : σ) (a : α) (c c1 : List Byte) (max l : Int) (hc : c.length = 3)
    (hread : ReadAll R fuel r c = some (none, c1, r1)) (hl : ParsePrefix c1 = some l) :
    ReadMessage R A fuel r a c max =
      if l > max ∨ l > MaxLegalSize ∨ l ≤ 0 then
        some ⟨Outcome.returned (none, some Error.ErrMsgSize), c1, r1, a⟩
      else
        match (A.Allocate a l l).1 with
        | Outcome.panicked => some ⟨Outcome.panicked, c1, r1, (A.Allocate a l l).2⟩
        | Outcome.returned data =>
          match ReadAll R fuel r1 (data.getD []) with
          | none => none
          | some res =>
            some ⟨Outcome.returned (data.map (fun _ => res.2.1), res.1), c1, res.2.2,
              (A.Allocate a l l).2⟩ := by
  unfold ReadMessage
  rw [if_neg (by simp [hc])]
  simp only [hread, hl]
  split
  · rfl
  · rcases hA : A.Allocate a l l with ⟨o, a1⟩
    cases o with
    | panicked => rfl
    | returned data =>
      simp only
      rcases hR : ReadAll R fuel r1 (data.getD []) with _ | ⟨err, d1, r2⟩
      · rfl
      · rfl

/-- Reading one whole frame from an in-memory source: the payload comes back and the
source is left at what follows the frame. -/
theorem ReadMessage_stream_frame {α : Type} (A : Allocator α) (a a1 : α) (d0 : List Byte)
    (l : Nat) (p rest c : List Byte) (chunks : List Nat) (eof : Error) (max : Int)
    (fuel : Nat) (hl0 : 0 < l) (hmax : (l : Int) ≤ max) (hl24 : l < 2 ^ 24)
    (hp : p.length = l) (hc : c.length = 3) (hch : ∀ k ∈ chunks, 1 ≤ k)
    (hf3 : 3 ≤ fuel) (hfl : l ≤ fuel)
    (hA : A.Allocate a (l : Int) (l : Int) = (Outcome.returned (some d0), a1))
    (hd0 : d0.length = l) :
    ∃ j, ReadMessage streamReader A fuel
        ⟨byte l :: byte (l / 256) :: byte (l / 65536) :: (p ++ rest), chunks, eof⟩ a c max =
      some ⟨Outcome.returned (some p, none), [byte l, byte (l / 256), byte (l / 65536)],
        ⟨rest, chunks.drop j, eof⟩, a1⟩ ∧
      (byte l :: byte (l / 256) :: byte (l / 65536) :: (p ++ rest)).length
        = 3 + l + rest.length := by
  obtain ⟨j1, h1⟩ := stream_ReadAll fuel
    ⟨byte l :: byte (l / 256) :: byte (l / 65536) :: (p ++ rest), chunks, eof⟩ c hch (by omega)
  rw [if_pos (by simp [hc])] at h1
  simp only [hc, List.take_succ_cons, List.take_zero, List.drop_succ_cons, List.drop_zero] at h1
  obtain ⟨j2, h2⟩ := stream_ReadAll fuel ⟨p ++ rest, chunks.drop j1, eof⟩ d0
    (fun k hk => hch k (List.mem_of_mem_drop hk)) (by omega)
  rw [if_pos (by simp [hd0, hp])] at h2
  simp only [hd0, ← hp, List.take_left, List.drop_left, List.drop_drop] at h2
  refine ⟨j1 + j2, ?_, by simp [hp]; omega⟩
  rw [ReadMessage_prefix_done streamReader A fuel _ _ a c _ max l hc h1
    (ParsePrefix_encode l hl24 [])]
  rw [if_neg (by simp only [MaxLegalSize]; omega), hA]
  simp only [Option.getD_some, h2, Option.map_some', hp, Nat.add_comm j2 j1]

/-- Claim C4. For every length `l` with `0 < l <= max` and `l < 2^24`, every payload `p`
of length `l` and every remainder `rest`: `ReadMessage` (3-byte scratch, limit `max`,
an allocator that hands out a slice of the requested length) on an in-memory source
holding the little-endian 3-byte encoding of `l`, then `p`, then `rest`, delivered in
chunks of any positive sizes, returns exactly `p` with a nil error and leaves the
source positioned at `rest`, that is, consumes exactly `3 + l` bytes. -/
theorem C4_ReadMessage_frame {α : Type} (A : Allocator α) (a a1 : α) (d0 : List Byte)
    (l : Nat) (p rest c : List Byte) (chunks : List Nat) (eof : Error) (max : Int)
    (fuel : Nat) (hl0 : 0 < l) (hmax : (l : Int) ≤ max) (hl24 : l < 2 ^ 24)
    (hp : p.length = l) (hc : c.length = 3) (hch : ∀ k ∈ chunks, 1 ≤ k)
    (hf3 : 3 ≤ fuel) (hfl : l ≤ fuel)
    (hA : A.Allocate a (l : Int) (l : Int) = (Outcome.returned (some d0), a1))
    (hd0 : d0.length = l) :
    ∃ j, ReadMessage streamReader A fuel
        ⟨byte l :: byte (l / 256) :: byte (l / 65536) :: (p ++ rest), chunks, eof⟩ a c max =
      some ⟨Outcome.returned (some p, none), [byte l, byte (l / 256), byte (l / 65536)],
        ⟨rest, chunks.drop j, eof⟩, a1⟩ ∧
      (byte l :: byte (l / 256) :: byte (l / 65536) :: (p ++ rest)).length
        = 3 + l + rest.length :=
  ReadMessage_stream_frame A a a1 d0 l p rest c chunks eof max fuel hl0 hmax hl24 hp hc hch
    hf3 hfl hA hd0

/-- Instance of C4: the stream `[4,0,0,116,101,115,116]` followed by two more bytes,
delivered one byte per call, yields `"test"` and leaves the two bytes. -/
theorem C4_ReadMessage_frame_witness :
    ∃ j, ReadMessage streamReader MakeAllocator 4
        ⟨byte 4 :: byte (4 / 256) :: byte (4 / 65536) :: ([116, 101, 115, 116] ++ [9, 9]),
          [1, 1, 1, 1, 1, 1, 1], Error.EOF⟩ () [0, 0, 0] 4 =
      some ⟨Outcome.returned (some [116, 101, 115, 116], none),
        [byte 4, byte (4 / 256), byte (4 / 65536)],
        ⟨[9, 9], ([1, 1, 1, 1, 1, 1, 1] : List Nat).drop j, Error.EOF⟩, ()⟩ ∧
      (byte 4 :: byte (4 / 256) :: byte (4 / 65536) :: ([116, 101, 115, 116] ++ [9, 9])).length
        = 3 + 4 + ([9, 9] : List Byte).length :=
  C4_ReadMessage_frame MakeAllocator () () [0, 0, 0, 0] 4 [116, 101, 115, 116] [9, 9]
    [0, 0, 0] [1, 1, 1, 1, 1, 1, 1] Error.EOF 4 4 (by decide) (by decide) (by decide)
    (by decide) (by decide) (by decide) (by decide) (by decide) (by decide) (by decide)

/-! ## Observed runs of the full-transfer loop -/

theorem okReads_cons_ok (k : Nat) (r : ReadReturn) (t : List (Nat × ReadReturn))
    (h : r.err = none) : okReads ((k, r) :: t) = (k, r) :: okReads t := by
  simp [okReads, h]

theorem okReads_cons_err (k : Nat) (r : ReadReturn) (t : List (Nat × ReadReturn)) (x : Error)
    (h : r.err = some x) : okReads ((k, r) :: t) = okReads t := by
  simp [okReads, h]

theorem consumed_cons_ok (k : Nat) (r : ReadReturn) (t : List (Nat × ReadReturn))
    (h : r.err = none) : consumed ((k, r) :: t) = r.n + consumed t := by
  simp [consumed, okReads_cons_ok k r t h]

theorem delivered_cons_ok (k : Nat) (r : ReadReturn) (t : List (Nat × ReadReturn))
    (h : r.err = none) : delivered ((k, r) :: t) = r.data.take r.n ++ delivered t := by
  simp [delivered, okReads_cons_ok k r t h]

/-- A loop step of an observed reader whose `Read` call returns a nil error. -/
theorem recording_step_ok {σ : Type} (R : Reader σ) (fuel : Nat) (s : σ)
    (log : List (Nat × ReadReturn)) (b : List Byte) (index : Nat) (hlt : index < b.length)
    (herr : (R.Read s (b.drop index)).1.err = none) :
    ReadAllFrom R.recording (fuel + 1) (s, log) b index =
      ReadAllFrom R.recording fuel
        ((R.Read s (b.drop index)).2, log ++ [((b.drop index).length, (R.Read s (b.drop index)).1)])
        (b.take index ++ store (b.drop index) (R.Read s (b.drop index)).1.data)
        (index + (R.Read s (b.drop index)).1.n) :=
  ReadAllFrom_step_ok R.recording fuel (s, log) b index hlt herr

/-- A loop step of an observed reader whose `Read` call returns an error. -/
theorem recording_step_err {σ : Type} (R : Reader σ) (fuel : Nat) (s : σ)
    (log : List (Nat × ReadReturn)) (b : List Byte) (index : Nat) (e : Error)
    (hlt : index < b.length) (herr : (R.Read s (b.drop index)).1.err = some e) :
    ReadAllFrom R.recording (fuel + 1) (s, log) b index =
      some (some e, b.take index ++ store (b.drop index) (R.Read s (b.drop index)).1.data,
        ((R.Read s (b.drop index)).2,
          log ++ [((b.drop index).length, (R.Read s (b.drop index)).1)])) :=
  ReadAllFrom_step_err R.recording fuel (s, log) b index e hlt herr

theorem take_take_append_store (b d : List Byte) (index : Nat) (h : index ≤ b.length) :
    (b.take index ++ store (b.drop index) d).take index = b.take index := by
  rw [List.take_append_eq_append_take]
  simp [List.length_take, Nat.min_eq_left h]

theorem take_append_store (b d : List Byte) (index n : Nat) (h : index ≤ b.length)
    (hn : n ≤ d.length) (hp : n ≤ (b.drop index).length) :
    (b.take index ++ store (b.drop index) d).take (index + n) = b.take index ++ d.take n := by
  rw [List.take_append_eq_append_take]
  have h1 : (b.take index).length = index := by
    simp [List.length_take, Nat.min_eq_left h]
  rw [h1, List.take_of_length_le (by omega), Nat.add_sub_cancel_left]
  congr 1
  unfold store
  rw [List.take_take, Nat.min_eq_left hp, List.take_append_of_le_length hn]

/-- The shape of an observed run of `ReadAll`: the log grows by the calls made; every
call but the last returned a nil error; the error returned is that of the last call
(nil when no call was made); a nil return means the reported counts reached `len(b)`;
and the bytes before the starting index are not touched. -/
theorem recording_ReadAllFrom_shape {σ : Type} (R : Reader σ) (fuel : Nat) :
    ∀ (s : σ) (log0 : List (Nat × ReadReturn)) (b : List Byte) (index : Nat)
      (err : Option Error) (b1 : List Byte) (s1 : σ) (log1 : List (Nat × ReadReturn)),
      ReadAllFrom R.recording fuel (s, log0) b index = some (err, b1, (s1, log1)) →
      ∃ ext, log1 = log0 ++ ext ∧ ext.length ≤ fuel ∧
        (∀ e ∈ ext.dropLast, e.2.err = none) ∧
        err = ext.getLast?.bind (fun e => e.2.err) ∧
        (err = none → b.length ≤ index + consumed ext) ∧
        (index ≤ b.length → b1.take index = b.take index) := by
  induction fuel with
  | zero =>
    intro s log0 b index err b1 s1 log1 h
    simp only [ReadAllFrom] at h
    split at h
    · cases h
    · rename_i hge
      cases h
      exact ⟨[], by simp, by simp, by simp, by simp, fun _ => by omega, fun _ => rfl⟩
  | succ fuel ih =>
    intro s log0 b index err b1 s1 log1 h
    by_cases hlt : index < b.length
    · rcases herr : (R.Read s (b.drop index)).1.err with _ | e
      · rw [recording_step_ok R fuel s log0 b index hlt herr] at h
        obtain ⟨ext, h1, hlen, h2, h3, h4, h5⟩ := ih _ _ _ _ _ _ _ _ h
        have hb' : (b.take index ++ store (b.drop index) (R.Read s (b.drop index)).1.data).length
            = b.length := by
          simp only [List.length_append, List.length_take, store_length, List.length_drop]
          omega
        refine ⟨((b.drop index).length, (R.Read s (b.drop index)).1) :: ext, ?_, ?_, ?_, ?_, ?_, ?_⟩
        · rw [h1]; simp
        · simp only [List.length_cons]; omega
        · intro e he
          cases ext with
          | nil => simp at he
          | cons x t =>
            rw [List.dropLast_cons₂] at he
            rcases List.mem_cons.mp he with rfl | he
            · exact herr
            · exact h2 e he
        · cases ext with
          | nil => simpa [herr] using h3
          | cons x t => rw [h3]; simp [List.getLast?_cons_cons]
        · intro hn
          have := h4 hn
          rw [consumed_cons_ok _ _ _ herr]
          rw [hb'] at this
          omega
        · intro hle
          by_cases hle2 : index + (R.Read s (b.drop index)).1.n ≤ b.length
          · have h6 := h5 (by rw [hb']; exact hle2)
            have h7 := congrArg (List.take index) h6
            rw [List.take_take, List.take_take, Nat.min_eq_left (Nat.le_add_right _ _)] at h7
            rw [h7, take_take_append_store b _ index hle]
          · rw [ReadAllFrom_full _ _ _ _ _ (by rw [hb']; omega)] at h
            cases h
            exact take_take_append_store b _ index hle
      · rw [recording_step_err R fuel s log0 b index e hlt herr] at h
        cases h
        refine ⟨[((b.drop index).length, (R.Read s (b.drop index)).1)], rfl, by simp, by simp,
          by simp [herr], fun hn => (by cases hn), fun hle => take_take_append_store b _ index hle⟩
    · rw [ReadAllFrom_full _ _ _ _ _ (by omega)] at h
      cases h
      exact ⟨[], by simp, by simp, by simp, by simp, fun _ => by omega, fun _ => rfl⟩

/-- The contents of an observed run of `ReadAll` when every successful call reported no
more than it was offered: the counts never pass `len(b)`; and if every such call also
stored the bytes it reported, the buffer holds, from the starting index on, the
delivered bytes in call order. -/
theorem recording_ReadAllFrom_data {σ : Type} (R : Reader σ) (fuel : Nat) :
    ∀ (s : σ) (log0 : List (Nat × ReadReturn)) (b : List Byte) (index : Nat)
      (err : Option Error) (b1 : List Byte) (s1 : σ) (ext : List (Nat × ReadReturn)),
      ReadAllFrom R.recording fuel (s, log0) b index = some (err, b1, (s1, log0 ++ ext)) →
      (∀ e ∈ okReads ext, e.2.n ≤ e.1) → index ≤ b.length →
      index + consumed ext ≤ b.length ∧
        ((∀ e ∈ okReads ext, e.2.n ≤ e.2.data.length) →
          b1.take (index + consumed ext) = b.take index ++ delivered ext) := by
  induction fuel with
  | zero =>
    intro s log0 b index err b1 s1 ext h _ hle
    simp only [ReadAllFrom] at h
    split at h
    · cases h
    · simp only [Option.some.injEq, Prod.mk.injEq] at h
      obtain ⟨_, rfl, _, hlog⟩ := h
      have : ext = [] := by simpa using hlog.symm
      subst this
      simp [consumed, delivered, okReads, hle]
  | succ fuel ih =>
    intro s log0 b index err b1 s1 ext h hwb hle
    by_cases hlt : index < b.length
    · have hb' : (b.take index ++ store (b.drop index) (R.Read s (b.drop index)).1.data).length
          = b.length := by
        simp only [List.length_append, List.length_take, store_length, List.length_drop]
        omega
      rcases herr : (R.Read s (b.drop index)).1.err with _ | e
      · rw [recording_step_ok R fuel s log0 b index hlt herr] at h
        obtain ⟨ext', h1, -⟩ := recording_ReadAllFrom_shape R fuel _ _ _ _ _ _ _ _ h
        rw [List.append_assoc] at h1
        have hext : ext = ((b.drop index).length, (R.Read s (b.drop index)).1) :: ext' := by
          simpa using List.append_cancel_left h1
        subst hext
        rw [okReads_cons_ok _ _ _ herr] at hwb
        have hent := hwb _ (List.mem_cons_self _ _)
        simp only at hent
        have hidx : index + (R.Read s (b.drop index)).1.n ≤ b.length := by
          simp only [List.length_drop] at hent
          omega
        have h' : ReadAllFrom R.recording fuel
            ((R.Read s (b.drop index)).2,
              log0 ++ [((b.drop index).length, (R.Read s (b.drop index)).1)])
            (b.take index ++ store (b.drop index) (R.Read s (b.drop index)).1.data)
            (index + (R.Read s (b.drop index)).1.n) =
            some (err, b1, (s1, (log0 ++ [((b.drop index).length, (R.Read s (b.drop index)).1)])
              ++ ext')) := by
          rw [h]; simp
        obtain ⟨i1, i2⟩ := ih _ _ _ _ _ _ _ _ h'
          (fun e he => hwb e (List.mem_cons_of_mem _ he)) (by rw [hb']; exact hidx)
        rw [hb'] at i1
        rw [consumed_cons_ok _ _ _ herr, delivered_cons_ok _ _ _ herr]
        refine ⟨by omega, fun hdat => ?_⟩
        rw [okReads_cons_ok _ _ _ herr] at hdat
        have hent2 := hdat _ (List.mem_cons_self _ _)
        simp only at hent2
        rw [← Nat.add_assoc, i2 (fun e he => hdat e (List.mem_cons_of_mem _ he)),
          take_append_store b _ index _ (by omega) hent2 hent, List.append_assoc]
      · rw [recording_step_err R fuel s log0 b index e hlt herr] at h
        simp only [Option.some.injEq, Prod.mk.injEq] at h
        obtain ⟨_, rfl, _, hlog⟩ := h
        have hext : ext = [((b.drop index).length, (R.Read s (b.drop index)).1)] := by
          simpa using (List.append_cancel_left hlog).symm
        subst hext
        have hc : consumed [((b.drop index).length, (R.Read s (b.drop index)).1)] = 0 := by
          rw [consumed, okReads_cons_err _ _ _ e herr]; rfl
        have hd : delivered [((b.drop index).length, (R.Read s (b.drop index)).1)] = [] := by
          rw [delivered, okReads_cons_err _ _ _ e herr]; rfl
        rw [hc, hd]
        exact ⟨by omega, fun _ => by simpa using take_take_append_store b _ index (by omega)⟩
    · rw [ReadAllFrom_full _ _ _ _ _ (by omega)] at h
      simp only [Option.some.injEq, Prod.mk.injEq] at h
      obtain ⟨_, rfl, _, hlog⟩ := h
      have : ext = [] := by simpa using hlog.symm
      subst this
      simp [consumed, delivered, okReads, hle]

/-! ## Size and configuration errors -/

/-- Claim C5 (as stated, refuted). A sink whose `Write` itself returns `ErrMsgSize` (the
test double `MockWriter{I: 0, E: ErrMsgSize}`) makes `WriteMessage` return
`ErrMsgSize` for the 3-byte payload `"tes"` with limit 10, although the length is
neither 0 nor above the limit nor above `MaxLegalSize`, and after a `Write` call was
made on the sink. -/
theorem C5_counterexample :
    (WriteMessage mockWriter.recording (⟨0, some Error.ErrMsgSize, none⟩, [])
        [116, 101, 115] [0, 0, 0] 10).out = Outcome.returned (some Error.ErrMsgSize) ∧
    ¬ (([116, 101, 115] : List Byte).length = 0 ∨
        ((([116, 101, 115] : List Byte).length : Nat) : Int) > 10 ∨
        ((([116, 101, 115] : List Byte).length : Nat) : Int) > MaxLegalSize) ∧
    (WriteMessage mockWriter.recording (⟨0, some Error.ErrMsgSize, none⟩, [])
        [116, 101, 115] [0, 0, 0] 10).w.2 = [[3, 0, 0]] := by
  decide

/-- Claim C5 (amended). With a 3-byte scratch buffer: whenever `len(m) = 0` or
`len(m) > max` or `len(m) > MaxLegalSize`, `WriteMessage` returns `ErrMsgSize`, makes
no `Write` call on the sink and leaves the scratch buffer as it was; returning
`ErrMsgSize` without having made a `Write` call happens in those cases only; and
provided the sink's `Write` never itself returns `ErrMsgSize`, `WriteMessage` returns
`ErrMsgSize` only in those cases (so a payload of length exactly `max`, at most
`MaxLegalSize`, is not rejected, and one of length `max + 1` is). -/
theorem C5_WriteMessage_size_error {τ : Type} (W : Writer τ) (w : τ)
    (log : List (List Byte)) (m c : List Byte) (max : Int) (hc : c.length = 3) :
    ((m.length = 0 ∨ (m.length : Int) > max ∨ (m.length : Int) > MaxLegalSize) →
      WriteMessage W.recording (w, log) m c max =
        ⟨Outcome.returned (some Error.ErrMsgSize), c, (w, log)⟩) ∧
    (((WriteMessage W.recording (w, log) m c max).out
          = Outcome.returned (some Error.ErrMsgSize) ∧
        (WriteMessage W.recording (w, log) m c max).w.2 = log) ↔
      (m.length = 0 ∨ (m.length : Int) > max ∨ (m.length : Int) > MaxLegalSize)) ∧
    ((∀ s p, (W.Write s p).1.2 ≠ some Error.ErrMsgSize) →
      ((WriteMessage W.recording (w, log) m c max).out
          = Outcome.returned (some Error.ErrMsgSize) ↔
        (m.length = 0 ∨ (m.length : Int) > max ∨ (m.length : Int) > MaxLegalSize))) := by
  have hbad : (m.length = 0 ∨ (m.length : Int) > max ∨ (m.length : Int) > MaxLegalSize) →
      WriteMessage W.recording (w, log) m c max =
        ⟨Outcome.returned (some Error.ErrMsgSize), c, (w, log)⟩ := by
    intro h
    unfold WriteMessage
    rw [if_neg (by simp [hc]), if_pos (by omega)]
  refine ⟨hbad, ⟨fun hout => ?_, fun h => by rw [hbad h]; exact ⟨rfl, rfl⟩⟩,
    fun hW => ⟨fun hout => ?_, fun h => by rw [hbad h]⟩⟩
  · by_contra hsz
    obtain ⟨c1, _, _, heq⟩ := WriteMessage_pass W.recording (w, log) m c max hc (by omega)
    have hlog := hout.2
    rw [heq] at hlog
    simp only [Writer.recording] at hlog
    rcases h1 : (W.Write w c1).1.2 with _ | e1
    · rw [h1] at hlog
      simp only [List.append_assoc, List.singleton_append] at hlog
      have := congrArg List.length hlog
      simp only [List.length_append, List.length_cons, List.length_nil] at this
      omega
    · rw [h1] at hlog
      simp only at hlog
      have := congrArg List.length hlog
      simp only [List.length_append, List.length_cons, List.length_nil] at this
      omega
  · by_contra hsz
    obtain ⟨c1, _, _, heq⟩ := WriteMessage_pass W.recording (w, log) m c max hc (by omega)
    rw [heq] at hout
    simp only [Writer.recording] at hout
    rcases h1 : (W.Write w c1).1.2 with _ | e1
    · rw [h1] at hout
      simp only [Outcome.returned.injEq] at hout
      exact hW _ _ hout
    · rw [h1] at hout
      simp only [Outcome.returned.injEq, Option.some.injEq] at hout
      subst hout
      exact hW _ _ h1

/-- Instance of C5: limit 3 and payload `"test"`: `ErrMsgSize`, nothing written. -/
theorem C5_WriteMessage_size_error_witness :
    WriteMessage bufferWriter.recording ([], []) [116, 101, 115, 116] [0, 0, 0] 3 =
      ⟨Outcome.returned (some Error.ErrMsgSize), [0, 0, 0], ([], [])⟩ :=
  (C5_WriteMessage_size_error bufferWriter [] [] [116, 101, 115, 116] [0, 0, 0] 3
    (by decide)).1 (Or.inr (Or.inl (by decide)))

/-- Claim C7. For every scratch buffer `c` with `len(c) != 3`, every source, sink,
allocator, payload and limit: `ReadMessage` returns `(nil, ErrPrefixBufferSize)` and
`WriteMessage` returns `ErrPrefixBufferSize`; no `Read`, `Write` or `Allocate` call is
made (the observation logs are unchanged) and `c` is left as it was. -/
theorem C7_bad_scratch_buffer {σ α τ : Type} (R : Reader σ) (A : Allocator α) (W : Writer τ)
    (fuel : Nat) (r : σ) (rl : List (Nat × ReadReturn)) (a : α) (al : List (Int × Int))
    (w : τ) (wl : List (List Byte)) (m c : List Byte) (max : Int) (hc : c.length ≠ 3) :
    ReadMessage R.recording A.recording fuel (r, rl) (a, al) c max =
      some ⟨Outcome.returned (none, some Error.ErrPrefixBufferSize), c, (r, rl), (a, al)⟩ ∧
    WriteMessage W.recording (w, wl) m c max =
      ⟨Outcome.returned (some Error.ErrPrefixBufferSize), c, (w, wl)⟩ := by
  constructor
  · unfold ReadMessage
    rw [if_pos hc]
  · unfold WriteMessage
    rw [if_pos hc]

/-- Instance of C7: a 4-byte scratch buffer, with a source holding a good frame. -/
theorem C7_bad_scratch_buffer_witness :
    ReadMessage streamReader.recording MakeAllocator.recording 10
        (⟨[4, 0, 0, 116, 101, 115, 116], [], Error.EOF⟩, []) ((), []) [0, 0, 0, 0] 10 =
      some ⟨Outcome.returned (none, some Error.ErrPrefixBufferSize), [0, 0, 0, 0],
        (⟨[4, 0, 0, 116, 101, 115, 116], [], Error.EOF⟩, []), ((), [])⟩ ∧
    WriteMessage bufferWriter.recording ([], []) [116, 101, 115] [0, 0, 0, 0] 10 =
      ⟨Outcome.returned (some Error.ErrPrefixBufferSize), [0, 0, 0, 0], ([], [])⟩ :=
  C7_bad_scratch_buffer streamReader MakeAllocator bufferWriter 10
    ⟨[4, 0, 0, 116, 101, 115, 116], [], Error.EOF⟩ [] () [] [] [] [116, 101, 115]
    [0, 0, 0, 0] 10 (by decide)

/-- In an observed run of `ReadAll` that returned nil, where every call reported no more
bytes than it was offered, the reported counts add up to exactly `len(b)`. -/
theorem recording_ReadAll_consumed {σ : Type} (R : Reader σ) (fuel : Nat) (s s1 : σ)
    (log0 ext : List (Nat × ReadReturn)) (b b1 : List Byte)
    (h : ReadAll R.recording fuel (s, log0) b = some (none, b1, (s1, log0 ++ ext)))
    (hwb : ∀ e ∈ ext, e.2.n ≤ e.1) : consumed ext = b.length := by
  obtain ⟨ext', h1, -, -, -, h4, -⟩ := recording_ReadAllFrom_shape R fuel _ _ _ _ _ _ _ _ h
  have hext : ext = ext' := List.append_cancel_left h1
  subst hext
  have hge := h4 rfl
  have hle := (recording_ReadAllFrom_data R fuel _ _ _ _ _ _ _ _ h
    (fun e he => hwb e (List.mem_of_mem_filter he)) (Nat.zero_le _)).1
  omega

/-- Claim C6. With a 3-byte scratch buffer and a source from which the prefix is read
without error, decoding to `l`: `ReadMessage` returns `(nil, ErrMsgSize)` if and only
if `l <= 0` or `l > max` or `l > MaxLegalSize`. In that case no `Allocate` call is
made, and the `Read` calls made are exactly those that read the prefix; when each of
them reported no more bytes than it was offered, they consumed exactly 3 bytes. -/
theorem C6_ReadMessage_size_error {σ α : Type} (R : Reader σ) (A : Allocator α) (fuel : Nat)
    (r r1 : σ) (rl ext : List (Nat × ReadReturn)) (a : α) (al : List (Int × Int))
    (c c1 : List Byte) (max l : Int) (hc : c.length = 3)
    (hread : ReadAll R.recording fuel (r, rl) c = some (none, c1, (r1, rl ++ ext)))
    (hl : ParsePrefix c1 = some l) :
    ((∃ res, ReadMessage R.recording A.recording fuel (r, rl) (a, al) c max = some res ∧
        res.out = Outcome.returned (none, some Error.ErrMsgSize)) ↔
      (l ≤ 0 ∨ l > max ∨ l > MaxLegalSize)) ∧
    ((l ≤ 0 ∨ l > max ∨ l > MaxLegalSize) →
      ReadMessage R.recording A.recording fuel (r, rl) (a, al) c max =
        some ⟨Outcome.returned (none, some Error.ErrMsgSize), c1, (r1, rl ++ ext), (a, al)⟩) ∧
    ((∀ e ∈ ext, e.2.n ≤ e.1) → consumed ext = 3) := by
  have hpre := ReadMessage_prefix_done R.recording A.recording fuel (r, rl) (r1, rl ++ ext)
    (a, al) c c1 max l hc hread hl
  have hbad : (l ≤ 0 ∨ l > max ∨ l > MaxLegalSize) →
      ReadMessage R.recording A.recording fuel (r, rl) (a, al) c max =
        some ⟨Outcome.returned (none, some Error.ErrMsgSize), c1, (r1, rl ++ ext), (a, al)⟩ := by
    intro h
    rw [hpre, if_pos (by omega)]
  refine ⟨⟨fun hres => ?_, fun h => ⟨_, hbad h, rfl⟩⟩, hbad, fun hwb => ?_⟩
  · by_contra hv
    obtain ⟨res, hres, hout⟩ := hres
    rw [hpre, if_neg (by omega)] at hres
    rcases hA : (A.recording.Allocate (a, al) l l).1 with data | _
    · rw [hA] at hres
      simp only at hres
      rcases hR : ReadAll R.recording fuel (r1, rl ++ ext) (data.getD []) with _ | res2
      · rw [hR] at hres
        cases hres
      · rw [hR] at hres
        simp only [Option.some.injEq] at hres
        subst hres
        simp only [Outcome.returned.injEq, Prod.mk.injEq, Option.map_eq_none'] at hout
        obtain ⟨hd, he⟩ := hout
        subst hd
        simp only [Option.getD_none, ReadAll] at hR
        rw [ReadAllFrom_full _ _ _ _ _ (by simp)] at hR
        cases hR
        cases he
    · rw [hA] at hres
      simp only [Option.some.injEq] at hres
      subst hres
      cases hout
  · rw [recording_ReadAll_consumed R fuel r r1 rl ext c c1 hread hwb, hc]

/-- Instance of C6: the stream `[4,0,0,116,101,115,116]` read with limit 3. -/
theorem C6_ReadMessage_size_error_witness :
    ReadMessage streamReader.recording MakeAllocator.recording 3
        (⟨[4, 0, 0, 116, 101, 115, 116], [], Error.EOF⟩, []) ((), []) [0, 0, 0] 3 =
      some ⟨Outcome.returned (none, some Error.ErrMsgSize), [4, 0, 0],
        (⟨[116, 101, 115, 116], [], Error.EOF⟩, [] ++ [(3, ⟨3, [4, 0, 0], none⟩)]), ((), [])⟩ :=
  (C6_ReadMessage_size_error streamReader MakeAllocator 3
    ⟨[4, 0, 0, 116, 101, 115, 116], [], Error.EOF⟩ ⟨[116, 101, 115, 116], [], Error.EOF⟩
    [] [(3, ⟨3, [4, 0, 0], none⟩)] () [] [0, 0, 0] [4, 0, 0] 3 4
    (by decide) (by decide) (by decide)).2.1 (Or.inr (Or.inl (by decide)))

/-! ## Short reads and read errors -/

/-- Claim C8. For every buffer `b` and every in-memory source that holds at least
`len(b)` bytes and hands them out in chunks of arbitrary positive sizes (in
particular one byte per `Read` call), `ReadAll` returns nil, `b` ends up equal to the
first `len(b)` bytes of the source's data in order, and the source is left just
after them. -/
theorem C8_ReadAll_short_reads (data : List Byte) (chunks : List Nat) (eof : Error)
    (b : List Byte) (fuel : Nat) (hch : ∀ k ∈ chunks, 1 ≤ k)
    (hdata : b.length ≤ data.length) (hf : b.length ≤ fuel) :
    ∃ j, ReadAll streamReader fuel ⟨data, chunks, eof⟩ b =
      some (none, data.take b.length, ⟨data.drop b.length, chunks.drop j, eof⟩) := by
  obtain ⟨j, hj⟩ := stream_ReadAll fuel ⟨data, chunks, eof⟩ b hch hf
  rw [if_pos hdata] at hj
  exact ⟨j, hj⟩

/-- Instance of C8: `"tester"` delivered one byte per call into a 6-byte buffer. -/
theorem C8_ReadAll_short_reads_witness :
    ∃ j, ReadAll streamReader 6 ⟨[116, 101, 115, 116, 101, 114], [1, 1, 1, 1, 1, 1], Error.EOF⟩
        [97, 97, 97, 97, 97, 97] =
      some (none, ([116, 101, 115, 116, 101, 114] : List Byte).take
          ([97, 97, 97, 97, 97, 97] : List Byte).length,
        ⟨([116, 101, 115, 116, 101, 114] : List Byte).drop
          ([97, 97, 97, 97, 97, 97] : List Byte).length,
          ([1, 1, 1, 1, 1, 1] : List Nat).drop j, Error.EOF⟩) :=
  C8_ReadAll_short_reads [116, 101, 115, 116, 101, 114] [1, 1, 1, 1, 1, 1] Error.EOF
    [97, 97, 97, 97, 97, 97] 6 (by decide) (by decide) (by decide)

/-- Claim C9. Take any run of `ReadAll` on an observed reader. (1) Every `Read` call but
the last one made returned a nil error, and the error `ReadAll` returns is exactly the
one returned by the last call: a call that returns a non-nil error is followed by no
further call and its error is the result. (2) The buffer keeps its length, and when
the successful calls stored the bytes they reported (no more than offered), the
bytes they delivered sit in place at the front of the buffer, in call order.
(3) From any state of the loop, if the `Read` call about to be made returns a non-nil
error `e`, `ReadAll` returns `e` right after that one call and the bytes stored
before the current index are untouched. -/
theorem C9_ReadAll_error {σ : Type} (R : Reader σ) (fuel : Nat) (s s1 : σ)
    (b b1 : List Byte) (err : Option Error) (log : List (Nat × ReadReturn))
    (hrun : ReadAll R.recording fuel (s, []) b = some (err, b1, (s1, log))) :
    ((∀ e ∈ log.dropLast, e.2.err = none) ∧ err = log.getLast?.bind (fun e => e.2.err)) ∧
    (b1.length = b.length ∧
      ((∀ e ∈ okReads log, e.2.n ≤ e.1 ∧ e.2.n ≤ e.2.data.length) →
        consumed log ≤ b.length ∧ b1.take (consumed log) = delivered log)) ∧
    (∀ (k : Nat) (s' : σ) (log0 : List (Nat × ReadReturn)) (b' : List Byte) (index : Nat)
        (e : Error), index < b'.length → (R.Read s' (b'.drop index)).1.err = some e →
      ∃ b2, ReadAllFrom R.recording (k + 1) (s', log0) b' index =
          some (some e, b2, ((R.Read s' (b'.drop index)).2,
            log0 ++ [((b'.drop index).length, (R.Read s' (b'.drop index)).1)])) ∧
        b2.take index = b'.take index ∧ b2.length = b'.length) := by
  obtain ⟨ext, h1, -, h2, h3, -, -⟩ := recording_ReadAllFrom_shape R fuel _ _ _ _ _ _ _ _ hrun
  simp only [List.nil_append] at h1
  subst h1
  refine ⟨⟨h2, h3⟩, ⟨ReadAll_length _ _ _ _ _ _ _ hrun, fun hwb => ?_⟩, ?_⟩
  · have hrun' : ReadAllFrom R.recording fuel (s, []) b 0 = some (err, b1, (s1, [] ++ log)) := by
      simpa [ReadAll] using hrun
    obtain ⟨i1, i2⟩ := recording_ReadAllFrom_data R fuel _ _ _ _ _ _ _ _ hrun'
      (fun e he => (hwb e he).1) (Nat.zero_le _)
    have i3 := i2 (fun e he => (hwb e he).2)
    simp only [Nat.zero_add, List.take_zero, List.nil_append] at i1 i3
    exact ⟨i1, i3⟩
  · intro k s' log0 b' index e hlt herr
    refine ⟨_, recording_step_err R k s' log0 b' index e hlt herr,
      take_take_append_store b' _ index (by omega), ?_⟩
    simp only [List.length_append, List.length_take, store_length, List.length_drop]
    omega

/-- Instance of C9: a source that ends after `"te"` while six bytes are wanted. -/
theorem C9_ReadAll_error_witness :
    ((∀ e ∈ ([(6, ⟨1, [116], none⟩), (5, ⟨1, [101], none⟩), (4, ⟨0, [], some Error.EOF⟩)] :
          List (Nat × ReadReturn)).dropLast, e.2.err = none) ∧
      some Error.EOF =
        ([(6, ⟨1, [116], none⟩), (5, ⟨1, [101], none⟩), (4, ⟨0, [], some Error.EOF⟩)] :
          List (Nat × ReadReturn)).getLast?.bind (fun e => e.2.err)) :=
  (C9_ReadAll_error streamReader 6 ⟨[116, 101], [1, 1, 1], Error.EOF⟩ ⟨[], [1], Error.EOF⟩
    [97, 97, 97, 97, 97, 97] [116, 101, 97, 97, 97, 97] (some Error.EOF)
    [(6, ⟨1, [116], none⟩), (5, ⟨1, [101], none⟩), (4, ⟨0, [], some Error.EOF⟩)]
    (by decide)).1

/-- Claim C10. (1) When the source holds a valid prefix of length `l` (`0 < l <= max`)
followed by only `k < l` payload bytes `pk` and then fails with error `e`,
`ReadMessage` (with an allocator that hands out a slice of the requested length)
returns `e` together with a non-nil buffer of length exactly `l` whose first `k` bytes
are `pk`. (2) On a configuration error, on an error while reading the prefix, and on
a size error, the returned buffer is nil. -/
theorem C10_ReadMessage_buffer_on_error {σ α β : Type} (R : Reader σ) (B : Allocator β)
    (A : Allocator α) (a a1 : α) (d0 : List Byte) (l k : Nat) (pk c : List Byte)
    (chunks : List Nat) (e : Error) (max : Int) (fuel : Nat)
    (hl0 : 0 < l) (hmax : (l : Int) ≤ max) (hl24 : l < 2 ^ 24)
    (hk : pk.length = k) (hkl : k < l) (hc : c.length = 3) (hch : ∀ n ∈ chunks, 1 ≤ n)
    (hf3 : 3 ≤ fuel) (hfl : l ≤ fuel)
    (hA : A.Allocate a (l : Int) (l : Int) = (Outcome.returned (some d0), a1))
    (hd0 : d0.length = l) :
    (∃ j buf, ReadMessage streamReader A fuel
          ⟨byte l :: byte (l / 256) :: byte (l / 65536) :: pk, chunks, e⟩ a c max =
        some ⟨Outcome.returned (some buf, some e), [byte l, byte (l / 256), byte (l / 65536)],
          ⟨[], chunks.drop j, e⟩, a1⟩ ∧
        buf.length = l ∧ buf.take k = pk ∧ buf = pk ++ d0.drop k) ∧
    (∀ (r : σ) (b : β) (c' : List Byte) (lim : Int), c'.length ≠ 3 →
      ReadMessage R B fuel r b c' lim =
        some ⟨Outcome.returned (none, some Error.ErrPrefixBufferSize), c', r, b⟩) ∧
    (∀ (r r1 : σ) (b : β) (c' c1 : List Byte) (lim : Int) (e' : Error), c'.length = 3 →
      ReadAll R fuel r c' = some (some e', c1, r1) →
      ReadMessage R B fuel r b c' lim = some ⟨Outcome.returned (none, some e'), c1, r1, b⟩) ∧
    (∀ (r r1 : σ) (b : β) (c' c1 : List Byte) (lim l' : Int), c'.length = 3 →
      ReadAll R fuel r c' = some (none, c1, r1) → ParsePrefix c1 = some l' →
      (l' > lim ∨ l' > MaxLegalSize ∨ l' ≤ 0) →
      ReadMessage R B fuel r b c' lim =
        some ⟨Outcome.returned (none, some Error.ErrMsgSize), c1, r1, b⟩) := by
  refine ⟨?_, ?_, ?_, ?_⟩
  · obtain ⟨j1, h1⟩ := stream_ReadAll fuel
      ⟨byte l :: byte (l / 256) :: byte (l / 65536) :: pk, chunks, e⟩ c hch (by omega)
    rw [if_pos (by simp [hc])] at h1
    simp only [hc, List.take_succ_cons, List.take_zero, List.drop_succ_cons, List.drop_zero] at h1
    obtain ⟨j2, h2⟩ := stream_ReadAll fuel ⟨pk, chunks.drop j1, e⟩ d0
      (fun n hn => hch n (List.mem_of_mem_drop hn)) (by omega)
    rw [if_neg (by simp only [hd0, hk]; omega)] at h2
    simp only [List.drop_drop, hk] at h2
    refine ⟨j1 + j2, pk ++ d0.drop k, ?_, ?_, ?_, rfl⟩
    · rw [ReadMessage_prefix_done streamReader A fuel _ _ a c _ max l hc h1
        (ParsePrefix_encode l hl24 [])]
      rw [if_neg (by simp only [MaxLegalSize]; omega), hA]
      simp only [Option.getD_some, h2, Option.map_some', Nat.add_comm j2 j1]
    · simp only [List.length_append, List.length_drop, hk, hd0]
      omega
    · rw [← hk, List.take_left]
  · intro r b c' lim hc'
    unfold ReadMessage
    rw [if_pos hc']
  · intro r r1 b c' c1 lim e' hc' hread
    unfold ReadMessage
    rw [if_neg (by simp [hc'])]
    simp only [hread]
  · intro r r1 b c' c1 lim l' hc' hread hl' hbad
    rw [ReadMessage_prefix_done R B fuel r r1 b c' c1 lim l' hc' hread hl', if_pos hbad]

/-- Instance of C10: prefix 4, only `"te"` delivered, then `io.EOF`. -/
theorem C10_ReadMessage_buffer_on_error_witness :
    ∃ j buf, ReadMessage streamReader MakeAllocator 4
          ⟨byte 4 :: byte (4 / 256) :: byte (4 / 65536) :: [116, 101], [2, 2, 2, 2],
            Error.EOF⟩ () [0, 0, 0] 4 =
        some ⟨Outcome.returned (some buf, some Error.EOF),
          [byte 4, byte (4 / 256), byte (4 / 65536)],
          ⟨[], ([2, 2, 2, 2] : List Nat).drop j, Error.EOF⟩, ()⟩ ∧
        buf.length = 4 ∧ buf.take 2 = [116, 101] ∧
        buf = [116, 101] ++ ([0, 0, 0, 0] : List Byte).drop 2 :=
  (C10_ReadMessage_buffer_on_error streamReader MakeAllocator MakeAllocator () ()
    [0, 0, 0, 0] 4 2 [116, 101] [0, 0, 0] [2, 2, 2, 2] Error.EOF 4 4
    (by decide) (by decide) (by decide) (by decide) (by decide) (by decide) (by decide)
    (by decide) (by decide) (by decide) (by decide)).1

/-! ## Round trip -/

/-- Writing a payload shorter than `2^24` bytes to an in-memory buffer and reading the
buffer back (any positive chunking) returns the payload. -/
theorem roundtrip_below_ceiling (m c c' : List Byte) (maxOut maxIn : Int) (chunks : List Nat)
    (eof : Error) (fuel : Nat) (hm0 : 0 < m.length) (hm24 : m.length < 2 ^ 24)
    (hout : (m.length : Int) ≤ maxOut) (hin : (m.length : Int) ≤ maxIn)
    (hc : c.length = 3) (hc' : c'.length = 3) (hch : ∀ k ∈ chunks, 1 ≤ k)
    (hf3 : 3 ≤ fuel) (hfl : m.length ≤ fuel) :
    (WriteMessage bufferWriter [] m c maxOut).out = Outcome.returned none ∧
    ∃ res, ReadMessage streamReader MakeAllocator fuel
        ⟨(WriteMessage bufferWriter [] m c maxOut).w, chunks, eof⟩ () c' maxIn = some res ∧
      res.out = Outcome.returned (some m, none) ∧ res.r.data = [] := by
  have hlegal : (m.length : Int) ≤ MaxLegalSize := by
    simp only [MaxLegalSize]; omega
  obtain ⟨c1, _, hc1, heq⟩ := WriteMessage_pass bufferWriter [] m c maxOut hc (by omega)
  subst hc1
  rw [heq]
  simp only [bufferWriter, List.nil_append, List.cons_append]
  refine ⟨trivial, ?_⟩
  obtain ⟨j, hj, -⟩ := ReadMessage_stream_frame MakeAllocator () () (List.replicate m.length 0) m.length m []
    c' chunks eof maxIn fuel hm0 hin hm24 rfl hc' hch hf3 hfl
    (by simp [MakeAllocator]) (by simp)
  rw [List.append_nil] at hj
  exact ⟨_, hj, rfl, rfl⟩

/-- A payload of exactly `MaxLegalSize = 2^24` bytes passes the checks of
`WriteMessage` when the limit allows it, but its length does not fit the 3-byte
prefix: the prefix written is `[0, 0, 0]`, and `ReadMessage` on the written bytes
reports `ErrMsgSize` instead of returning the payload. -/
theorem roundtrip_at_ceiling (m c c' : List Byte) (maxOut maxIn : Int) (chunks : List Nat)
    (eof : Error) (fuel : Nat) (hm : m.length = 16777216) (hout : 16777216 ≤ maxOut)
    (hc : c.length = 3) (hc' : c'.length = 3) (hch : ∀ k ∈ chunks, 1 ≤ k) (hf3 : 3 ≤ fuel) :
    WriteMessage bufferWriter [] m c maxOut =
      ⟨Outcome.returned none, [0, 0, 0], 0 :: 0 :: 0 :: m⟩ ∧
    ∃ j, ReadMessage streamReader MakeAllocator fuel ⟨0 :: 0 :: 0 :: m, chunks, eof⟩ () c' maxIn =
      some ⟨Outcome.returned (none, some Error.ErrMsgSize), [0, 0, 0],
        ⟨m, chunks.drop j, eof⟩, ()⟩ := by
  constructor
  · obtain ⟨c1, _, hc1, heq⟩ := WriteMessage_pass bufferWriter [] m c maxOut hc
      (by simp only [MaxLegalSize, hm]; omega)
    have hc0 : c1 = [0, 0, 0] := by
      rw [hc1, hm]; decide
    subst hc0
    rw [heq]
    rfl
  · obtain ⟨j, h1⟩ := stream_ReadAll fuel ⟨0 :: 0 :: 0 :: m, chunks, eof⟩ c' hch (by omega)
    rw [if_pos (by simp [hc'])] at h1
    simp only [hc', List.take_succ_cons, List.take_zero, List.drop_succ_cons,
      List.drop_zero] at h1
    refine ⟨j, ?_⟩
    rw [ReadMessage_prefix_done streamReader MakeAllocator fuel _ _ () c' _ maxIn 0 hc' h1
      (by decide)]
    rw [if_pos (Or.inr (Or.inr (le_refl _)))]

/-- Claim C1 (fails at the ceiling). The payload of `MaxLegalSize = 16777216` zero bytes
satisfies `0 < len(m) <= min(maxOut, MaxLegalSize)` for `maxOut = 16777216`;
`WriteMessage` accepts it and puts `[0, 0, 0]` followed by the payload on the wire; and
`ReadMessage` (read limit `16777216 >= len(m)`) on exactly those bytes returns
`(nil, ErrMsgSize)` instead of the payload, leaving the whole payload unread. -/
theorem C1_roundtrip_fails_at_MaxLegalSize :
    (0 < (List.replicate 16777216 (0 : Byte)).length ∧
      ((List.replicate 16777216 (0 : Byte)).length : Int) ≤ min 16777216 MaxLegalSize) ∧
    WriteMessage bufferWriter [] (List.replicate 16777216 (0 : Byte)) [0, 0, 0] 16777216 =
      ⟨Outcome.returned none, [0, 0, 0], 0 :: 0 :: 0 :: List.replicate 16777216 (0 : Byte)⟩ ∧
    ReadMessage streamReader MakeAllocator 3
        ⟨0 :: 0 :: 0 :: List.replicate 16777216 (0 : Byte), [], Error.EOF⟩ () [0, 0, 0] 16777216 =
      some ⟨Outcome.returned (none, some Error.ErrMsgSize), [0, 0, 0],
        ⟨List.replicate 16777216 (0 : Byte), [], Error.EOF⟩, ()⟩ := by
  have h := roundtrip_at_ceiling (List.replicate 16777216 (0 : Byte)) [0, 0, 0] [0, 0, 0]
    16777216 16777216 [] Error.EOF 3 (List.length_replicate _ _) (le_refl _) rfl rfl
    (fun k hk => absurd hk (List.not_mem_nil k)) (le_refl _)
  obtain ⟨hw, j, hr⟩ := h
  rw [List.drop_nil] at hr
  refine ⟨⟨?_, ?_⟩, hw, hr⟩
  · rw [List.length_replicate]; decide
  · rw [List.length_replicate]; decide

/-! ## The connection wrapper: flush and close -/

/-- Claim C11. For every `MsgConn` (closer and flusher observed): with a `Closer` set,
`Close` calls `Closer.Close` exactly once whatever the flush returned, and returns the
flush error when the flush failed (whatever the close returned), otherwise the result
of `Closer.Close`; with no `Closer` set, `Close` is `Flush`; with neither `Closer` nor
`Flusher`, `Close` returns nil and calls nothing. -/
theorem C11_Close_precedence {σ τ α κ φ : Type} (mc : MsgConn σ τ α κ φ)
    (env : Env σ τ α (κ × List (Option Error)) (φ × List (Option Error))) :
    (∀ C, mc.Closer = some C →
      (mc.observed.Close env).2.cl.2
          = env.cl.2 ++ [(C.Close env.cl.1).1] ∧
      (mc.observed.Close env).2.cl.1 = (C.Close env.cl.1).2 ∧
      (mc.observed.Close env).2.fl = (mc.observed.Flush env).2.fl ∧
      (mc.observed.Close env).1 =
        match (mc.observed.Flush env).1 with
        | some e => some e
        | none => (C.Close env.cl.1).1) ∧
    (mc.Closer = none → mc.observed.Close env = mc.observed.Flush env) ∧
    (mc.Closer = none → mc.Flusher = none → mc.observed.Close env = (none, env)) ∧
    (∀ F, mc.Flusher = some F →
      mc.observed.Flush env =
        ((F.Flush env.fl.1).1,
          { env with fl := ((F.Flush env.fl.1).2, env.fl.2 ++ [(F.Flush env.fl.1).1]) })) := by
  rcases mc with ⟨A, mi, mo, R, W, Cl, Fl, rp, wp⟩
  cases Cl with
  | none =>
    cases Fl with
    | none => simp [MsgConn.Close, MsgConn.Flush, MsgConn.observed]
    | some F => simp [MsgConn.Close, MsgConn.Flush, MsgConn.observed, Flusher.recording]
  | some C0 =>
    cases Fl with
    | none => simp [MsgConn.Close, MsgConn.Flush, MsgConn.observed, Closer.recording]
    | some F =>
      simp only [MsgConn.Close, MsgConn.Flush, MsgConn.observed, Closer.recording,
        Flusher.recording, Option.map_some', Option.some.injEq, forall_eq', false_implies,
        true_and, and_true]
      rcases (F.Flush env.fl.1).1 with _ | e <;> simp

/-- Instance of C11 (the scenario of `TestMsgConnClose`): flusher and closer both fail;
`Close` returns the flush error and the closer has been called once. -/
theorem C11_Close_precedence_witness :
    ((⟨none, 0, 0, streamReader, bufferWriter, some testCloser, some testFlusher,
        ⟨0, 0, 0⟩, ⟨0, 0, 0⟩⟩ : MsgConn Stream (List Byte) Unit (Option Error)
          (Option Error)).observed.Close
        ⟨⟨[], [], Error.EOF⟩, [], (), (some (Error.foreign 2), []),
          (some (Error.foreign 1), [])⟩).2.cl.2
      = [] ++ [(testCloser.Close (some (Error.foreign 2))).1] ∧
    ((⟨none, 0, 0, streamReader, bufferWriter, some testCloser, some testFlusher,
        ⟨0, 0, 0⟩, ⟨0, 0, 0⟩⟩ : MsgConn Stream (List Byte) Unit (Option Error)
          (Option Error)).observed.Close
        ⟨⟨[], [], Error.EOF⟩, [], (), (some (Error.foreign 2), []),
          (some (Error.foreign 1), [])⟩).1 = some (Error.foreign 1) :=
  ⟨((C11_Close_precedence
      (⟨none, 0, 0, streamReader, bufferWriter, some testCloser, some testFlusher,
        ⟨0, 0, 0⟩, ⟨0, 0, 0⟩⟩ : MsgConn Stream (List Byte) Unit (Option Error) (Option Error))
      ⟨⟨[], [], Error.EOF⟩, [], (), (some (Error.foreign 2), []),
        (some (Error.foreign 1), [])⟩).1 testCloser rfl).1,
    rfl⟩

/-- When the package function fails, `MsgConn.WriteMessage` returns its error. -/
theorem MsgConn.WriteMessage_failed {σ τ α κ φ : Type} (mc : MsgConn σ τ α κ φ)
    (msg : List Byte) (flush : Bool) (env : Env σ τ α κ φ) (e : Error)
    (h : (Msgconn.WriteMessage mc.Writer env.w msg mc.wp.slice mc.maxOutSize).out
      = Outcome.returned (some e)) :
    mc.WriteMessage msg flush env =
      (Outcome.returned (some e),
        { mc with
          wp := mc.wp.assign
            (Msgconn.WriteMessage mc.Writer env.w msg mc.wp.slice mc.maxOutSize).c },
        { env with
          w := (Msgconn.WriteMessage mc.Writer env.w msg mc.wp.slice mc.maxOutSize).w }) := by
  unfold MsgConn.WriteMessage
  simp only [h]

/-- When the package function succeeds, a flush is asked for and a `Flusher` is set,
`MsgConn.WriteMessage` returns what `Flush` returns. -/
theorem MsgConn.WriteMessage_flushed {σ τ α κ φ : Type} (mc : MsgConn σ τ α κ φ)
    (msg : List Byte) (env : Env σ τ α κ φ) (F : Msgconn.Flusher φ)
    (h : (Msgconn.WriteMessage mc.Writer env.w msg mc.wp.slice mc.maxOutSize).out
      = Outcome.returned none) (hF : mc.Flusher = some F) :
    mc.WriteMessage msg true env =
      (Outcome.returned (F.Flush env.fl).1,
        { mc with
          wp := mc.wp.assign
            (Msgconn.WriteMessage mc.Writer env.w msg mc.wp.slice mc.maxOutSize).c },
        { env with
          w := (Msgconn.WriteMessage mc.Writer env.w msg mc.wp.slice mc.maxOutSize).w,
          fl := (F.Flush env.fl).2 }) := by
  unfold MsgConn.WriteMessage
  simp only [h, hF]

/-- When the package function succeeds and no flush is asked for or no `Flusher` is
set, `MsgConn.WriteMessage` returns nil. -/
theorem MsgConn.WriteMessage_unflushed {σ τ α κ φ : Type} (mc : MsgConn σ τ α κ φ)
    (msg : List Byte) (flush : Bool) (env : Env σ τ α κ φ)
    (h : (Msgconn.WriteMessage mc.Writer env.w msg mc.wp.slice mc.maxOutSize).out
      = Outcome.returned none) (hn : flush = false ∨ mc.Flusher = none) :
    mc.WriteMessage msg flush env =
      (Outcome.returned none,
        { mc with
          wp := mc.wp.assign
            (Msgconn.WriteMessage mc.Writer env.w msg mc.wp.slice mc.maxOutSize).c },
        { env with
          w := (Msgconn.WriteMessage mc.Writer env.w msg mc.wp.slice mc.maxOutSize).w }) := by
  unfold MsgConn.WriteMessage
  rcases hn with hn | hn
  · subst hn
    simp only [h]
  · simp only [h, hn]

/-- When the package function panics, so does `MsgConn.WriteMessage`. -/
theorem MsgConn.WriteMessage_panicked {σ τ α κ φ : Type} (mc : MsgConn σ τ α κ φ)
    (msg : List Byte) (flush : Bool) (env : Env σ τ α κ φ)
    (h : (Msgconn.WriteMessage mc.Writer env.w msg mc.wp.slice mc.maxOutSize).out
      = Outcome.panicked) :
    mc.WriteMessage msg flush env =
      (Outcome.panicked,
        { mc with
          wp := mc.wp.assign
            (Msgconn.WriteMessage mc.Writer env.w msg mc.wp.slice mc.maxOutSize).c },
        { env with
          w := (Msgconn.WriteMessage mc.Writer env.w msg mc.wp.slice mc.maxOutSize).w }) := by
  unfold MsgConn.WriteMessage
  simp only [h]

/-- Claim C12. `MsgConn.WriteMessage(msg, flush)` (flusher observed): if the underlying
`WriteMessage` fails, its error is returned and no `Flush` call is made; if it succeeds,
`flush` is true and a `Flusher` is set, `Flush` is called exactly once and its result
(error or nil) is returned; if it succeeds and `flush` is false or no `Flusher` is set,
nil is returned and no `Flush` call is made. -/
theorem C12_WriteMessage_flush {σ τ α κ φ : Type} (mc : MsgConn σ τ α κ φ) (msg : List Byte)
    (flush : Bool) (env : Env σ τ α (κ × List (Option Error)) (φ × List (Option Error))) :
    (∀ e, (Msgconn.WriteMessage mc.Writer env.w msg mc.wp.slice mc.maxOutSize).out
        = Outcome.returned (some e) →
      (mc.observed.WriteMessage msg flush env).1 = Outcome.returned (some e) ∧
      (mc.observed.WriteMessage msg flush env).2.2.fl = env.fl) ∧
    ((Msgconn.WriteMessage mc.Writer env.w msg mc.wp.slice mc.maxOutSize).out
        = Outcome.returned none →
      (∀ F, flush = true → mc.Flusher = some F →
        (mc.observed.WriteMessage msg flush env).1 = Outcome.returned (F.Flush env.fl.1).1 ∧
        (mc.observed.WriteMessage msg flush env).2.2.fl
          = ((F.Flush env.fl.1).2, env.fl.2 ++ [(F.Flush env.fl.1).1])) ∧
      (flush = false ∨ mc.Flusher = none →
        (mc.observed.WriteMessage msg flush env).1 = Outcome.returned none ∧
        (mc.observed.WriteMessage msg flush env).2.2.fl = env.fl)) := by
  refine ⟨fun e he => ?_, fun hok => ⟨fun F hfl hF => ?_, fun h => ?_⟩⟩
  · rw [MsgConn.WriteMessage_failed mc.observed msg flush env e he]
    exact ⟨rfl, rfl⟩
  · subst hfl
    have hF' : mc.observed.Flusher = some F.recording := by
      simp [MsgConn.observed, hF]
    rw [MsgConn.WriteMessage_flushed mc.observed msg env F.recording hok hF']
    exact ⟨rfl, rfl⟩
  · have h' : flush = false ∨ mc.observed.Flusher = none := by
      rcases h with h | h
      · exact Or.inl h
      · exact Or.inr (by simp [MsgConn.observed, h])
    rw [MsgConn.WriteMessage_unflushed mc.observed msg flush env hok h']
    exact ⟨rfl, rfl⟩

/-- Instance of C12 (the scenario of `TestMsgConnWriteMessage`): a successful write of
`"test"` with `flush` set and a flusher that fails returns the flush error after one
`Flush` call. -/
theorem C12_WriteMessage_flush_witness :
    ((⟨none, 5, 5, streamReader, bufferWriter, none, some testFlusher,
        ⟨0, 0, 0⟩, ⟨0, 0, 0⟩⟩ : MsgConn Stream (List Byte) Unit Unit
          (Option Error)).observed.WriteMessage [116, 101, 115, 116] true
        ⟨⟨[], [], Error.EOF⟩, [], (), ((), []), (some (Error.foreign 1), [])⟩).1
      = Outcome.returned (testFlusher.Flush (some (Error.foreign 1))).1 ∧
    ((⟨none, 5, 5, streamReader, bufferWriter, none, some testFlusher,
        ⟨0, 0, 0⟩, ⟨0, 0, 0⟩⟩ : MsgConn Stream (List Byte) Unit Unit
          (Option Error)).observed.WriteMessage [116, 101, 115, 116] true
        ⟨⟨[], [], Error.EOF⟩, [], (), ((), []), (some (Error.foreign 1), [])⟩).2.2.fl
      = ((testFlusher.Flush (some (Error.foreign 1))).2,
          [] ++ [(testFlusher.Flush (some (Error.foreign 1))).1]) :=
  ((C12_WriteMessage_flush
    (⟨none, 5, 5, streamReader, bufferWriter, none, some testFlusher,
      ⟨0, 0, 0⟩, ⟨0, 0, 0⟩⟩ : MsgConn Stream (List Byte) Unit Unit (Option Error))
    [116, 101, 115, 116] true
    ⟨⟨[], [], Error.EOF⟩, [], (), ((), []), (some (Error.foreign 1), [])⟩).2 (by decide)).1
    testFlusher rfl rfl

/-! ## The connection wrapper: limits -/

/-- Unfolding of `MsgConn.ReadMessage` around a call of the package function that
returned. -/
theorem MsgConn.ReadMessage_of_some {σ τ α κ φ : Type} (mc : MsgConn σ τ α κ φ) (fuel : Nat)
    (env : Env σ τ α κ φ) (res : ReadMessageResult σ α)
    (h : Msgconn.ReadMessage mc.Reader mc.GetAllocator fuel env.r env.a mc.rp.slice
      mc.maxInSize = some res) :
    mc.ReadMessage fuel env =
      some (res.out, { mc with rp := mc.rp.assign res.c }, { env with r := res.r, a := res.a }) := by
  unfold MsgConn.ReadMessage
  simp only [h]

/-- Reading from an in-memory source whose first three bytes decode to an illegal
length: `(nil, ErrMsgSize)`, with the source left right after the prefix. -/
theorem ReadMessage_stream_size_error {α : Type} (A : Allocator α) (a : α)
    (b0 b1 b2 : Byte) (rest c : List Byte) (chunks : List Nat) (eof : Error) (max l : Int)
    (fuel : Nat) (hc : c.length = 3) (hch : ∀ k ∈ chunks, 1 ≤ k) (hf3 : 3 ≤ fuel)
    (hl : ParsePrefix [b0, b1, b2] = some l) (hbad : l > max ∨ l > MaxLegalSize ∨ l ≤ 0) :
    ∃ j, ReadMessage streamReader A fuel ⟨b0 :: b1 :: b2 :: rest, chunks, eof⟩ a c max =
      some ⟨Outcome.returned (none, some Error.ErrMsgSize), [b0, b1, b2],
        ⟨rest, chunks.drop j, eof⟩, a⟩ := by
  obtain ⟨j, h1⟩ := stream_ReadAll fuel ⟨b0 :: b1 :: b2 :: rest, chunks, eof⟩ c hch (by omega)
  rw [if_pos (by simp [hc])] at h1
  simp only [hc, List.take_succ_cons, List.take_zero, List.drop_succ_cons, List.drop_zero] at h1
  refine ⟨j, ?_⟩
  rw [ReadMessage_prefix_done streamReader A fuel _ _ a c _ max l hc h1 hl, if_pos hbad]

theorem Scratch.slice_length (x : Scratch) : x.slice.length = 3 := rfl

theorem Scratch.assign_slice (x : Scratch) (y0 y1 y2 : Byte) :
    (x.assign [y0, y1, y2]).slice = [y0, y1, y2] := rfl

/-- A payload of legal size written to an observed sink that never fails: nil is
returned and the sink was handed the encoded length and then the payload. -/
theorem WriteMessage_recording_ok {τ : Type} (W : Writer τ) (w : τ) (log : List (List Byte))
    (m c : List Byte) (max : Int) (hc : c.length = 3) (hm : 0 < m.length)
    (hmax : (m.length : Int) ≤ max) (hlegal : (m.length : Int) ≤ MaxLegalSize)
    (hW : ∀ s p, (W.Write s p).1.2 = none) :
    WriteMessage W.recording (w, log) m c max =
      ⟨Outcome.returned none, [byte m.length, byte (m.length / 256), byte (m.length / 65536)],
        ((W.Write (W.Write w [byte m.length, byte (m.length / 256),
            byte (m.length / 65536)]).2 m).2,
          log ++ [[byte m.length, byte (m.length / 256), byte (m.length / 65536)], m])⟩ := by
  obtain ⟨c1, _, hc1, heq⟩ := WriteMessage_pass W.recording (w, log) m c max hc (by omega)
  rw [heq]
  subst hc1
  simp [Writer.recording, hW]

/-- A payload of illegal size: `ErrMsgSize`, the sink and the scratch slice untouched. -/
theorem WriteMessage_size_rejected {τ : Type} (W : Writer τ) (w : τ) (m c : List Byte)
    (max : Int) (hc : c.length = 3)
    (hbad : (m.length : Int) > max ∨ (m.length : Int) > MaxLegalSize ∨ (m.length : Int) ≤ 0) :
    WriteMessage W w m c max = ⟨Outcome.returned (some Error.ErrMsgSize), c, w⟩ := by
  unfold WriteMessage
  rw [if_neg (by simp [hc]), if_pos hbad]

theorem MsgConn.zero_maxOutSize {σ τ : Type} (α κ φ : Type) (R : Msgconn.Reader σ)
    (W : Msgconn.Writer τ) : (MsgConn.zero α κ φ R W).maxOutSize = 256 := by
  simp [MsgConn.zero, MsgConn.maxOutSize, DefaultMaxMsgSize]

theorem MsgConn.zero_maxInSize {σ τ : Type} (α κ φ : Type) (R : Msgconn.Reader σ)
    (W : Msgconn.Writer τ) : (MsgConn.zero α κ φ R W).maxInSize = 256 := by
  simp [MsgConn.zero, MsgConn.maxInSize, DefaultMaxMsgSize]

/-- The default allocator hands out a zeroed slice of the requested length. -/
theorem MakeAllocator_onState_Allocate (α : Type) (a : α) (n : Nat) :
    (MakeAllocator.onState α).Allocate a (n : Int) (n : Int)
      = (Outcome.returned (some (List.replicate n 0)), a) := by
  simp [Allocator.onState, MakeAllocator]

/-- Claim C13. The limit used by `MsgConn.ReadMessage` is `MaxInSize` when
`MaxInSize > 0` and `DefaultMaxMsgSize = 256` otherwise; the limit used by
`MsgConn.WriteMessage` is `MaxOutSize` when `MaxOutSize > 0` and 256 otherwise; neither
limit depends on the other field. A zero-valued `MsgConn` (with its reader and writer
set) writes a 256-byte payload to a sink that accepts every write and rejects a
257-byte payload with `ErrMsgSize` without writing; it reads a 256-byte frame and
rejects a prefix of 257 with `ErrMsgSize`. -/
theorem C13_direction_limits {σ τ α κ φ : Type} (mc : MsgConn σ τ α κ φ)
    (R : Reader σ) (W : Writer τ) (env : Env σ (τ × List (List Byte)) α κ φ)
    (senv : Env Stream τ α κ φ) (m256 m257 p rest : List Byte) (flush : Bool) (fuel : Nat)
    (h256 : m256.length = 256) (h257 : m257.length = 257) (hp : p.length = 256)
    (hW : ∀ s q, (W.Write s q).1.2 = none) (hf : 256 ≤ fuel)
    (hch : ∀ k ∈ senv.r.chunks, 1 ≤ k) :
    (mc.maxInSize = if mc.MaxInSize > 0 then mc.MaxInSize else 256) ∧
    (mc.maxOutSize = if mc.MaxOutSize > 0 then mc.MaxOutSize else 256) ∧
    (∀ (fuel' : Nat) (env' : Env σ τ α κ φ), mc.ReadMessage fuel' env' =
      (Msgconn.ReadMessage mc.Reader mc.GetAllocator fuel' env'.r env'.a mc.rp.slice
        (if mc.MaxInSize > 0 then mc.MaxInSize else 256)).map
        (fun res => (res.out, { mc with rp := mc.rp.assign res.c },
          { env' with r := res.r, a := res.a }))) ∧
    (∀ (msg : List Byte) (env' : Env σ τ α κ φ),
      (mc.WriteMessage msg false env').1 =
        (Msgconn.WriteMessage mc.Writer env'.w msg mc.wp.slice
          (if mc.MaxOutSize > 0 then mc.MaxOutSize else 256)).out) ∧
    (∀ x : Int, ({ mc with MaxOutSize := x } : MsgConn σ τ α κ φ).maxInSize = mc.maxInSize ∧
      ({ mc with MaxInSize := x } : MsgConn σ τ α κ φ).maxOutSize = mc.maxOutSize) ∧
    (((MsgConn.zero α κ φ R W.recording).WriteMessage m256 flush env).1
        = Outcome.returned none ∧
      ((MsgConn.zero α κ φ R W.recording).WriteMessage m256 flush env).2.2.w.2
        = env.w.2 ++ [[0, 1, 0], m256]) ∧
    ((MsgConn.zero α κ φ R W.recording).WriteMessage m257 flush env =
      (Outcome.returned (some Error.ErrMsgSize), MsgConn.zero α κ φ R W.recording, env)) ∧
    (∃ j, (MsgConn.zero α κ φ streamReader W).ReadMessage fuel
        { senv with r := ⟨0 :: 1 :: 0 :: (p ++ rest), senv.r.chunks, senv.r.eof⟩ } =
      some (Outcome.returned (some p, none),
        { MsgConn.zero α κ φ streamReader W with rp := ⟨0, 1, 0⟩ },
        { senv with r := ⟨rest, senv.r.chunks.drop j, senv.r.eof⟩ })) ∧
    (∃ j, (MsgConn.zero α κ φ streamReader W).ReadMessage fuel
        { senv with r := ⟨1 :: 1 :: 0 :: rest, senv.r.chunks, senv.r.eof⟩ } =
      some (Outcome.returned (none, some Error.ErrMsgSize),
        { MsgConn.zero α κ φ streamReader W with rp := ⟨1, 1, 0⟩ },
        { senv with r := ⟨rest, senv.r.chunks.drop j, senv.r.eof⟩ })) := by
  have hin : mc.maxInSize = if mc.MaxInSize > 0 then mc.MaxInSize else 256 := by
    unfold MsgConn.maxInSize DefaultMaxMsgSize
    split <;> split <;> first | rfl | omega
  have hout : mc.maxOutSize = if mc.MaxOutSize > 0 then mc.MaxOutSize else 256 := by
    unfold MsgConn.maxOutSize DefaultMaxMsgSize
    split <;> split <;> first | rfl | omega
  refine ⟨hin, hout, ?_, ?_, ?_, ?_, ?_, ?_, ?_⟩
  · intro fuel' env'
    rw [← hin]
    unfold MsgConn.ReadMessage
    rcases Msgconn.ReadMessage mc.Reader mc.GetAllocator fuel' env'.r env'.a mc.rp.slice
      mc.maxInSize with _ | res <;> rfl
  · intro msg env'
    rw [← hout]
    rcases hres : (Msgconn.WriteMessage mc.Writer env'.w msg mc.wp.slice mc.maxOutSize).out
      with o | _
    · rcases o with _ | e
      · rw [MsgConn.WriteMessage_unflushed mc msg false env' hres (Or.inl rfl)]
      · rw [MsgConn.WriteMessage_failed mc msg false env' e hres]
    · rw [MsgConn.WriteMessage_panicked mc msg false env' hres]
  · intro x
    exact ⟨rfl, rfl⟩
  · have hz : Msgconn.WriteMessage (MsgConn.zero α κ φ R W.recording).Writer env.w m256
        (MsgConn.zero α κ φ R W.recording).wp.slice
        (MsgConn.zero α κ φ R W.recording).maxOutSize =
        ⟨Outcome.returned none, [0, 1, 0],
          ((W.Write (W.Write env.w.1 [0, 1, 0]).2 m256).2, env.w.2 ++ [[0, 1, 0], m256])⟩ := by
      rw [MsgConn.zero_maxOutSize]
      have h := WriteMessage_recording_ok W env.w.1 env.w.2 m256 [0, 0, 0] 256 rfl
        (by omega) (by omega) (by simp only [MaxLegalSize]; omega) hW
      have he : ([byte m256.length, byte (m256.length / 256), byte (m256.length / 65536)]
          : List Byte) = [0, 1, 0] := by
        rw [h256]; decide
      rw [he] at h
      exact h
    rw [MsgConn.WriteMessage_unflushed _ m256 flush env (by rw [hz]) (Or.inr rfl), hz]
    exact ⟨rfl, rfl⟩
  · have hz : Msgconn.WriteMessage (MsgConn.zero α κ φ R W.recording).Writer env.w m257
        (MsgConn.zero α κ φ R W.recording).wp.slice
        (MsgConn.zero α κ φ R W.recording).maxOutSize =
        ⟨Outcome.returned (some Error.ErrMsgSize), [0, 0, 0], env.w⟩ := by
      rw [MsgConn.zero_maxOutSize]
      exact WriteMessage_size_rejected _ env.w m257 [0, 0, 0] 256 rfl (Or.inl (by omega))
    rw [MsgConn.WriteMessage_failed _ m257 flush env Error.ErrMsgSize (by rw [hz]), hz]
    rfl
  · obtain ⟨j, hj, -⟩ := ReadMessage_stream_frame (MakeAllocator.onState α) senv.a senv.a
      (List.replicate 256 0) 256 p rest [0, 0, 0]
      senv.r.chunks senv.r.eof 256 fuel (by omega) (by omega) (by omega) hp rfl hch
      (by omega) hf (MakeAllocator_onState_Allocate α senv.a 256) (List.length_replicate _ _)
    have he : ([byte 256, byte (256 / 256), byte (256 / 65536)] : List Byte) = [0, 1, 0] := by
      decide
    have he0 : byte 256 = 0 := by decide
    have he1 : byte (256 / 256) = 1 := by decide
    have he2 : byte (256 / 65536) = 0 := by decide
    rw [he0, he1, he2] at hj
    refine ⟨j, ?_⟩
    have hj' : Msgconn.ReadMessage (MsgConn.zero α κ φ streamReader W).Reader
        (MsgConn.zero α κ φ streamReader W).GetAllocator fuel
        (⟨0 :: 1 :: 0 :: (p ++ rest), senv.r.chunks, senv.r.eof⟩ : Stream) senv.a
        (MsgConn.zero α κ φ streamReader W).rp.slice
        (MsgConn.zero α κ φ streamReader W).maxInSize =
        some ⟨Outcome.returned (some p, none), [0, 1, 0],
          ⟨rest, senv.r.chunks.drop j, senv.r.eof⟩, senv.a⟩ := by
      rw [MsgConn.zero_maxInSize]
      exact hj
    rw [MsgConn.ReadMessage_of_some _ fuel _ _ hj']
    rfl
  · obtain ⟨j, hj⟩ := ReadMessage_stream_size_error (MakeAllocator.onState α) senv.a 1 1 0
      rest [0, 0, 0] senv.r.chunks senv.r.eof 256 257 fuel
      rfl hch (by omega) (by decide) (Or.inl (by omega))
    refine ⟨j, ?_⟩
    have hj' : Msgconn.ReadMessage (MsgConn.zero α κ φ streamReader W).Reader
        (MsgConn.zero α κ φ streamReader W).GetAllocator fuel
        (⟨1 :: 1 :: 0 :: rest, senv.r.chunks, senv.r.eof⟩ : Stream) senv.a
        (MsgConn.zero α κ φ streamReader W).rp.slice
        (MsgConn.zero α κ φ streamReader W).maxInSize =
        some ⟨Outcome.returned (none, some Error.ErrMsgSize), [1, 1, 0],
          ⟨rest, senv.r.chunks.drop j, senv.r.eof⟩, senv.a⟩ := by
      rw [MsgConn.zero_maxInSize]
      exact hj
    rw [MsgConn.ReadMessage_of_some _ fuel _ _ hj']
    rfl

/-- Instance of C13: the zero-valued `MsgConn` over an in-memory buffer writes 256 zero
bytes and rejects 257 zero bytes with `ErrMsgSize`, leaving everything as it was. -/
theorem C13_direction_limits_witness :
    ((MsgConn.zero Unit Unit Unit streamReader bufferWriter.recording).WriteMessage
        (List.replicate 256 0) false
        ⟨⟨[], [], Error.EOF⟩, ([], []), (), (), ()⟩).1 = Outcome.returned none ∧
    (MsgConn.zero Unit Unit Unit streamReader bufferWriter.recording).WriteMessage
        (List.replicate 257 0) false ⟨⟨[], [], Error.EOF⟩, ([], []), (), (), ()⟩ =
      (Outcome.returned (some Error.ErrMsgSize),
        MsgConn.zero Unit Unit Unit streamReader bufferWriter.recording,
        ⟨⟨[], [], Error.EOF⟩, ([], []), (), (), ()⟩) :=
  have h := C13_direction_limits (MsgConn.zero Unit Unit Unit streamReader bufferWriter)
    streamReader bufferWriter ⟨⟨[], [], Error.EOF⟩, ([], []), (), (), ()⟩
    ⟨⟨[], [], Error.EOF⟩, [], (), (), ()⟩ (List.replicate 256 0) (List.replicate 257 0)
    (List.replicate 256 0) [] false 256 (List.length_replicate _ _) (List.length_replicate _ _)
    (List.length_replicate _ _) (fun _ _ => rfl) (le_refl _)
    (fun k hk => absurd hk (List.not_mem_nil k))
  ⟨h.2.2.2.2.2.1.1, h.2.2.2.2.2.2.1⟩

/-! ## The protocol ceiling and the prefix width -/

/-- Claim C14 (fails). `MaxLegalSize` is `16777216 = 2^24`, while the highest value
`ParsePrefix` can return is `16777215`, reached at `[255, 255, 255]`: every parsed
prefix is at most `MaxLegalSize - 1`, and no buffer parses to `MaxLegalSize`. -/
theorem C14_MaxLegalSize_not_reached :
    MaxLegalSize = 16777216 ∧
    ParsePrefix [255, 255, 255] = some 16777215 ∧
    (∀ (b : List Byte) (l : Int), ParsePrefix b = some l → l ≤ MaxLegalSize - 1) ∧
    (∀ b : List Byte, ParsePrefix b ≠ some MaxLegalSize) := by
  refine ⟨rfl, by decide, fun b l h => ?_, fun b h => ?_⟩
  · have := (ParsePrefix_range b l h).2
    simp only [MaxLegalSize]
    omega
  · have := (ParsePrefix_range b MaxLegalSize h).2
    simp only [MaxLegalSize] at this
    omega

/-- Claim C17. `WritePrefix` truncates the length to 24 bits: for every integer `l`
(negative or `>= 2^24` included) and every buffer `b` of at least three bytes (in
particular every 3-byte buffer), `WritePrefix(b, l)` does not panic, `ParsePrefix` of
the result is `l mod 2^24` (the non-negative residue), and the buffer keeps its length
and every byte after the first three. -/
theorem C17_WritePrefix_truncates (l : Int) (b : List Byte) (hb : 3 ≤ b.length) :
    ∃ b1, WritePrefix b l = some b1 ∧ ParsePrefix b1 = some (l % 2 ^ 24) ∧
      b1.length = b.length ∧ b1.drop 3 = b.drop 3 := by
  match b, hb with
  | x :: y :: z :: rest, _ =>
    refine ⟨_, WritePrefix_cons3 x y z rest l, ?_, rfl, rfl⟩
    rw [ParsePrefix_WritePrefix_bytes]
    congr 1
    have h : ((((l % 2 ^ 32).toNat % 2 ^ 24 : Nat)) : Int) = l % 2 ^ 24 := by omega
    exact h

/-- Instance of C17: writing `-1` over `[7, 7, 7, 9]` gives `[255, 255, 255, 9]`, which
parses to `2^24 - 1 = -1 mod 2^24`. -/
theorem C17_WritePrefix_truncates_witness :
    ∃ b1, WritePrefix [7, 7, 7, 9] (-1) = some b1 ∧ ParsePrefix b1 = some ((-1) % 2 ^ 24) ∧
      b1.length = ([7, 7, 7, 9] : List Byte).length ∧
      b1.drop 3 = ([7, 7, 7, 9] : List Byte).drop 3 :=
  C17_WritePrefix_truncates (-1) [7, 7, 7, 9] (by decide)

/-! ## Write errors and short writes -/

/-- Claim C16. For a payload that passes the checks of `WriteMessage` (sink observed):
if the `Write` of the 3-byte prefix returns an error, `WriteMessage` returns that error
after exactly one `Write` call, the payload never being offered; if the prefix `Write`
returns nil and the payload `Write` returns an error, `WriteMessage` returns that error
after exactly two `Write` calls, the prefix and then the payload each offered once; in
both cases the sink is left as those calls left it. -/
theorem C16_WriteMessage_write_errors {τ : Type} (W : Writer τ) (w : τ)
    (log : List (List Byte)) (m c : List Byte) (max : Int) (e : Error) (hc : c.length = 3)
    (hm : 0 < m.length) (hmax : (m.length : Int) ≤ max)
    (hlegal : (m.length : Int) ≤ MaxLegalSize) :
    ((W.Write w [byte m.length, byte (m.length / 256), byte (m.length / 65536)]).1.2 = some e →
      WriteMessage W.recording (w, log) m c max =
        ⟨Outcome.returned (some e),
          [byte m.length, byte (m.length / 256), byte (m.length / 65536)],
          ((W.Write w [byte m.length, byte (m.length / 256), byte (m.length / 65536)]).2,
            log ++ [[byte m.length, byte (m.length / 256), byte (m.length / 65536)]])⟩) ∧
    ((W.Write w [byte m.length, byte (m.length / 256), byte (m.length / 65536)]).1.2 = none →
      (W.Write (W.Write w [byte m.length, byte (m.length / 256),
        byte (m.length / 65536)]).2 m).1.2 = some e →
      WriteMessage W.recording (w, log) m c max =
        ⟨Outcome.returned (some e),
          [byte m.length, byte (m.length / 256), byte (m.length / 65536)],
          ((W.Write (W.Write w [byte m.length, byte (m.length / 256),
              byte (m.length / 65536)]).2 m).2,
            log ++ [[byte m.length, byte (m.length / 256), byte (m.length / 65536)], m])⟩) := by
  obtain ⟨c1, _, hc1, heq⟩ := WriteMessage_pass W.recording (w, log) m c max hc (by omega)
  subst hc1
  constructor
  · intro h1
    rw [heq]
    simp [Writer.recording, h1]
  · intro h1 h2
    rw [heq]
    simp [Writer.recording, h1, h2]

/-- Instance of C16 (the scenarios of `TestWriteMessage`): a `MockWriter` failing at
once, and one whose hook makes the second `Write` fail. -/
theorem C16_WriteMessage_write_errors_witness :
    WriteMessage mockWriter.recording (⟨0, some (Error.foreign 7), none⟩, []) [116, 101, 115]
        [0, 0, 0] 10 =
      ⟨Outcome.returned (some (Error.foreign 7)), [byte 3, byte (3 / 256), byte (3 / 65536)],
        ((mockWriter.Write ⟨0, some (Error.foreign 7), none⟩
            [byte 3, byte (3 / 256), byte (3 / 65536)]).2,
          [] ++ [[byte 3, byte (3 / 256), byte (3 / 65536)]])⟩ :=
  (C16_WriteMessage_write_errors mockWriter ⟨0, some (Error.foreign 7), none⟩ []
    [116, 101, 115] [0, 0, 0] 10 (Error.foreign 7) (by decide) (by decide) (by decide)
    (by decide)).1 rfl

/-- Claim C15 (as stated, refuted). The sink `MockWriter{I: 3, E: nil}` reports 3
bytes written for every `Write` and never an error. `WriteMessage` of the 4-byte payload
`"test"` returns nil, yet the sink accepted only `[4, 0, 0, 116, 101, 115]`: the last
payload byte is missing. -/
theorem C15_counterexample :
    (WriteMessage mockWriter.tracing (⟨3, none, none⟩, []) [116, 101, 115, 116] [0, 0, 0] 10).out
      = Outcome.returned none ∧
    accepted (WriteMessage mockWriter.tracing (⟨3, none, none⟩, []) [116, 101, 115, 116]
      [0, 0, 0] 10).w.2 = [4, 0, 0, 116, 101, 115] ∧
    accepted (WriteMessage mockWriter.tracing (⟨3, none, none⟩, []) [116, 101, 115, 116]
      [0, 0, 0] 10).w.2 ≠ [4, 0, 0, 116, 101, 115, 116] := by
  decide

/-- Claim C15 (amended). `WriteMessage` discards the count `Write` reports. For every
sink whose `Write` calls honour the `io.Writer` contract (a call that reports fewer
bytes than offered returns a non-nil error), if `WriteMessage` returns nil then the
sink was offered exactly the 3 prefix bytes and then the payload, and accepted all of
them. -/
theorem C15_WriteMessage_full_write {τ : Type} (W : Writer τ) (w : τ) (m c : List Byte)
    (max : Int)
    (hret : (WriteMessage W.tracing (w, []) m c max).out = Outcome.returned none)
    (hcontract : ∀ e ∈ (WriteMessage W.tracing (w, []) m c max).w.2,
      e.n < (e.p.length : Int) → e.err ≠ none) :
    (WriteMessage W.tracing (w, []) m c max).w.2.map (fun e => e.p) =
      [[byte m.length, byte (m.length / 256), byte (m.length / 65536)], m] ∧
    accepted (WriteMessage W.tracing (w, []) m c max).w.2 =
      byte m.length :: byte (m.length / 256) :: byte (m.length / 65536) :: m := by
  by_cases hc : c.length = 3
  · by_cases hsz : (m.length : Int) > max ∨ (m.length : Int) > MaxLegalSize ∨ (m.length : Int) ≤ 0
    · rw [WriteMessage_size_rejected _ _ m c max hc hsz] at hret
      cases hret
    · obtain ⟨c1, _, hc1, heq⟩ := WriteMessage_pass W.tracing (w, []) m c max hc hsz
      subst hc1
      rw [heq] at hret hcontract ⊢
      rcases h1 : (W.Write w [byte m.length, byte (m.length / 256),
        byte (m.length / 65536)]).1.2 with _ | e1
      · simp only [Writer.tracing, h1, Outcome.returned.injEq, List.nil_append,
          List.mem_append, List.mem_singleton, List.mem_cons, List.not_mem_nil, or_false,
          List.cons_append] at hret hcontract ⊢
        have k1 := hcontract _ (Or.inl rfl)
        have k2 := hcontract _ (Or.inr rfl)
        simp only [h1, hret, ne_eq, not_true_eq_false, imp_false, not_lt, List.length_cons,
          List.length_nil] at k1 k2
        refine ⟨by simp, ?_⟩
        simp only [accepted, List.map_cons, List.map_nil, List.flatten_cons, List.flatten_nil,
          List.append_nil]
        rw [List.take_of_length_le (by simp only [List.length_cons, List.length_nil]; omega),
          List.take_of_length_le (by omega)]
        rfl
      · simp only [Writer.tracing, h1] at hret
        cases hret
  · unfold WriteMessage at hret
    rw [if_pos hc] at hret
    cases hret

/-- Instance of C15: `"test"` written to an in-memory buffer, which accepts every
byte. -/
theorem C15_WriteMessage_full_write_witness :
    accepted (WriteMessage bufferWriter.tracing ([], []) [116, 101, 115, 116] [0, 0, 0] 10).w.2 =
      byte 4 :: byte (4 / 256) :: byte (4 / 65536) :: [116, 101, 115, 116] :=
  (C15_WriteMessage_full_write bufferWriter [] [116, 101, 115, 116] [0, 0, 0] 10
    (by decide) (by decide)).2

/-! ## The connection wrapper: the two directions -/

/-- What `MsgConn.WriteMessage` changes: in the struct only `wp`, among the collaborator
states only those of the writer and the flusher. -/
theorem MsgConn.WriteMessage_frame {σ τ α κ φ : Type} (mc : MsgConn σ τ α κ φ)
    (msg : List Byte) (flush : Bool) (env : Env σ τ α κ φ) :
    (mc.WriteMessage msg flush env).2.1 =
        { mc with wp := (mc.WriteMessage msg flush env).2.1.wp } ∧
      (mc.WriteMessage msg flush env).2.2 =
        { env with w := (mc.WriteMessage msg flush env).2.2.w,
                   fl := (mc.WriteMessage msg flush env).2.2.fl } := by
  rcases hres : (Msgconn.WriteMessage mc.Writer env.w msg mc.wp.slice mc.maxOutSize).out
    with o | _
  · rcases o with _ | e
    · rcases Option.eq_none_or_eq_some mc.Flusher with hF | ⟨F, hF⟩
      · rw [MsgConn.WriteMessage_unflushed mc msg flush env hres (Or.inr hF)]
        exact ⟨rfl, rfl⟩
      · cases flush
        · rw [MsgConn.WriteMessage_unflushed mc msg false env hres (Or.inl rfl)]
          exact ⟨rfl, rfl⟩
        · rw [MsgConn.WriteMessage_flushed mc msg env F hres hF]
          exact ⟨rfl, rfl⟩
    · rw [MsgConn.WriteMessage_failed mc msg flush env e hres]
      exact ⟨rfl, rfl⟩
  · rw [MsgConn.WriteMessage_panicked mc msg flush env hres]
    exact ⟨rfl, rfl⟩

/-- Unfolding of `MsgConn.ReadMessage` around a call of the package function that ran
out of fuel. -/
theorem MsgConn.ReadMessage_of_none {σ τ α κ φ : Type} (mc : MsgConn σ τ α κ φ) (fuel : Nat)
    (env : Env σ τ α κ φ)
    (h : Msgconn.ReadMessage mc.Reader mc.GetAllocator fuel env.r env.a mc.rp.slice
      mc.maxInSize = none) :
    mc.ReadMessage fuel env = none := by
  unfold MsgConn.ReadMessage
  simp only [h]

/-- Running `MsgConn.ReadMessage` with another `wp` and other writer and flusher states
changes nothing but those. -/
theorem MsgConn.ReadMessage_other_wp {σ τ α κ φ : Type} (mc : MsgConn σ τ α κ φ) (fuel : Nat)
    (env : Env σ τ α κ φ) (x : Scratch) (w1 : τ) (fl1 : φ) :
    ({ mc with wp := x } : MsgConn σ τ α κ φ).ReadMessage fuel { env with w := w1, fl := fl1 } =
      (mc.ReadMessage fuel env).map
        (fun y => (y.1, { y.2.1 with wp := x }, { y.2.2 with w := w1, fl := fl1 })) := by
  rcases hres : Msgconn.ReadMessage mc.Reader mc.GetAllocator fuel env.r env.a mc.rp.slice
    mc.maxInSize with _ | res
  · have h1 := MsgConn.ReadMessage_of_none mc fuel env hres
    have h2 := MsgConn.ReadMessage_of_none ({ mc with wp := x } : MsgConn σ τ α κ φ) fuel
      { env with w := w1, fl := fl1 } hres
    rw [h2, h1]
    rfl
  · have h1 := MsgConn.ReadMessage_of_some mc fuel env res hres
    have h2 := MsgConn.ReadMessage_of_some ({ mc with wp := x } : MsgConn σ τ α κ φ) fuel
      { env with w := w1, fl := fl1 } res hres
    rw [h2, h1]
    rfl

/-- Running `MsgConn.WriteMessage` with another `rp` and other reader and allocator
states changes nothing but those. -/
theorem MsgConn.WriteMessage_other_rp {σ τ α κ φ : Type} (mc : MsgConn σ τ α κ φ)
    (msg : List Byte) (flush : Bool) (env : Env σ τ α κ φ) (x : Scratch) (r1 : σ) (a1 : α) :
    ({ mc with rp := x } : MsgConn σ τ α κ φ).WriteMessage msg flush
        { env with r := r1, a := a1 } =
      ((mc.WriteMessage msg flush env).1, { (mc.WriteMessage msg flush env).2.1 with rp := x },
        { (mc.WriteMessage msg flush env).2.2 with r := r1, a := a1 }) := by
  rcases hres : (Msgconn.WriteMessage mc.Writer env.w msg mc.wp.slice mc.maxOutSize).out
    with o | _
  · rcases o with _ | e
    · rcases Option.eq_none_or_eq_some mc.Flusher with hF | ⟨F, hF⟩
      · rw [MsgConn.WriteMessage_unflushed mc msg flush env hres (Or.inr hF),
          MsgConn.WriteMessage_unflushed ({ mc with rp := x } : MsgConn σ τ α κ φ) msg flush
            { env with r := r1, a := a1 } hres (Or.inr hF)]
        rfl
      · cases flush
        · rw [MsgConn.WriteMessage_unflushed mc msg false env hres (Or.inl rfl),
            MsgConn.WriteMessage_unflushed ({ mc with rp := x } : MsgConn σ τ α κ φ) msg false
              { env with r := r1, a := a1 } hres (Or.inl rfl)]
          rfl
        · rw [MsgConn.WriteMessage_flushed mc msg env F hres hF,
            MsgConn.WriteMessage_flushed ({ mc with rp := x } : MsgConn σ τ α κ φ) msg
              { env with r := r1, a := a1 } F hres hF]
          rfl
    · rw [MsgConn.WriteMessage_failed mc msg flush env e hres,
        MsgConn.WriteMessage_failed ({ mc with rp := x } : MsgConn σ τ α κ φ) msg flush
          { env with r := r1, a := a1 } e hres]
      rfl
  · rw [MsgConn.WriteMessage_panicked mc msg flush env hres,
      MsgConn.WriteMessage_panicked ({ mc with rp := x } : MsgConn σ τ α κ φ) msg flush
        { env with r := r1, a := a1 } hres]
    rfl

/-- Unfolding of `MsgConn.ReadMessageIn` around a call of the package function that
returned. -/
theorem MsgConn.ReadMessageIn_of_some {ω σ τ α κ φ : Type} (L : Layout ω σ τ α κ φ)
    (mc : MsgConn σ τ α κ φ) (fuel : Nat) (x : ω) (res : ReadMessageResult σ α)
    (h : Msgconn.ReadMessage mc.Reader mc.GetAllocator fuel (L.view x).r (L.view x).a
      mc.rp.slice mc.maxInSize = some res) :
    mc.ReadMessageIn L fuel x =
      some (res.out, { mc with rp := mc.rp.assign res.c }, L.putA (L.putR x res.r) res.a) := by
  unfold MsgConn.ReadMessageIn
  simp only [h]

/-- Unfolding of `MsgConn.ReadMessageIn` around a call of the package function that ran
out of fuel. -/
theorem MsgConn.ReadMessageIn_of_none {ω σ τ α κ φ : Type} (L : Layout ω σ τ α κ φ)
    (mc : MsgConn σ τ α κ φ) (fuel : Nat) (x : ω)
    (h : Msgconn.ReadMessage mc.Reader mc.GetAllocator fuel (L.view x).r (L.view x).a
      mc.rp.slice mc.maxInSize = none) :
    mc.ReadMessageIn L fuel x = none := by
  unfold MsgConn.ReadMessageIn
  simp only [h]

/-- When the package function fails, `MsgConn.WriteMessageIn` returns its error. -/
theorem MsgConn.WriteMessageIn_failed {ω σ τ α κ φ : Type} (L : Layout ω σ τ α κ φ)
    (mc : MsgConn σ τ α κ φ) (msg : List Byte) (flush : Bool) (x : ω)
    (res : WriteMessageResult τ) (e : Error)
    (hres : Msgconn.WriteMessage mc.Writer (L.view x).w msg mc.wp.slice mc.maxOutSize = res)
    (h : res.out = Outcome.returned (some e)) :
    mc.WriteMessageIn L msg flush x =
      (Outcome.returned (some e), { mc with wp := mc.wp.assign res.c }, L.putW x res.w) := by
  subst hres
  unfold MsgConn.WriteMessageIn
  simp only [h]

/-- When the package function panics, so does `MsgConn.WriteMessageIn`. -/
theorem MsgConn.WriteMessageIn_panicked {ω σ τ α κ φ : Type} (L : Layout ω σ τ α κ φ)
    (mc : MsgConn σ τ α κ φ) (msg : List Byte) (flush : Bool) (x : ω)
    (res : WriteMessageResult τ)
    (hres : Msgconn.WriteMessage mc.Writer (L.view x).w msg mc.wp.slice mc.maxOutSize = res)
    (h : res.out = Outcome.panicked) :
    mc.WriteMessageIn L msg flush x =
      (Outcome.panicked, { mc with wp := mc.wp.assign res.c }, L.putW x res.w) := by
  subst hres
  unfold MsgConn.WriteMessageIn
  simp only [h]

/-- When the package function succeeds and no flush is asked for or no `Flusher` is
set, `MsgConn.WriteMessageIn` returns nil. -/
theorem MsgConn.WriteMessageIn_unflushed {ω σ τ α κ φ : Type} (L : Layout ω σ τ α κ φ)
    (mc : MsgConn σ τ α κ φ) (msg : List Byte) (flush : Bool) (x : ω)
    (res : WriteMessageResult τ)
    (hres : Msgconn.WriteMessage mc.Writer (L.view x).w msg mc.wp.slice mc.maxOutSize = res)
    (h : res.out = Outcome.returned none) (hn : flush = false ∨ mc.Flusher = none) :
    mc.WriteMessageIn L msg flush x =
      (Outcome.returned none, { mc with wp := mc.wp.assign res.c }, L.putW x res.w) := by
  subst hres
  unfold MsgConn.WriteMessageIn
  rcases hn with hn | hn
  · subst hn
    simp only [h]
  · simp only [h, hn]

/-- When the package function succeeds, a flush is asked for and a `Flusher` is set,
`MsgConn.WriteMessageIn` returns what `Flush` returns on the flusher object as the
writes left it. -/
theorem MsgConn.WriteMessageIn_flushed {ω σ τ α κ φ : Type} (L : Layout ω σ τ α κ φ)
    (mc : MsgConn σ τ α κ φ) (msg : List Byte) (x : ω)
    (res : WriteMessageResult τ) (F : Msgconn.Flusher φ)
    (hres : Msgconn.WriteMessage mc.Writer (L.view x).w msg mc.wp.slice mc.maxOutSize = res)
    (h : res.out = Outcome.returned none) (hF : mc.Flusher = some F) :
    mc.WriteMessageIn L msg true x =
      (Outcome.returned (F.Flush (L.view (L.putW x res.w)).fl).1,
        { mc with wp := mc.wp.assign res.c },
        L.putFl (L.putW x res.w) (F.Flush (L.view (L.putW x res.w)).fl).2) := by
  subst hres
  unfold MsgConn.WriteMessageIn
  simp only [h, hF]

/-- With five distinct objects, `MsgConn.ReadMessageIn` is `MsgConn.ReadMessage`. -/
theorem MsgConn.ReadMessageIn_separate {σ τ α κ φ : Type} (mc : MsgConn σ τ α κ φ)
    (fuel : Nat) (env : Env σ τ α κ φ) :
    mc.ReadMessageIn (Layout.separate σ τ α κ φ) fuel env = mc.ReadMessage fuel env := by
  rcases hres : Msgconn.ReadMessage mc.Reader mc.GetAllocator fuel env.r env.a mc.rp.slice
    mc.maxInSize with _ | res
  · rw [MsgConn.ReadMessage_of_none mc fuel env hres,
      MsgConn.ReadMessageIn_of_none (Layout.separate σ τ α κ φ) mc fuel env hres]
  · rw [MsgConn.ReadMessage_of_some mc fuel env res hres,
      MsgConn.ReadMessageIn_of_some (Layout.separate σ τ α κ φ) mc fuel env res hres]
    rfl

/-- With five distinct objects, `MsgConn.WriteMessageIn` is `MsgConn.WriteMessage`. -/
theorem MsgConn.WriteMessageIn_separate {σ τ α κ φ : Type} (mc : MsgConn σ τ α κ φ)
    (msg : List Byte) (flush : Bool) (env : Env σ τ α κ φ) :
    mc.WriteMessageIn (Layout.separate σ τ α κ φ) msg flush env =
      mc.WriteMessage msg flush env := by
  rcases hres : (Msgconn.WriteMessage mc.Writer env.w msg mc.wp.slice mc.maxOutSize).out
    with o | _
  · rcases o with _ | e
    · rcases Option.eq_none_or_eq_some mc.Flusher with hF | ⟨F, hF⟩
      · rw [MsgConn.WriteMessage_unflushed mc msg flush env hres (Or.inr hF),
          MsgConn.WriteMessageIn_unflushed (Layout.separate σ τ α κ φ) mc msg flush env _ rfl
            hres (Or.inr hF)]
        rfl
      · cases flush
        · rw [MsgConn.WriteMessage_unflushed mc msg false env hres (Or.inl rfl),
            MsgConn.WriteMessageIn_unflushed (Layout.separate σ τ α κ φ) mc msg false env _ rfl
              hres (Or.inl rfl)]
          rfl
        · rw [MsgConn.WriteMessage_flushed mc msg env F hres hF,
            MsgConn.WriteMessageIn_flushed (Layout.separate σ τ α κ φ) mc msg env _ F rfl
              hres hF]
          rfl
    · rw [MsgConn.WriteMessage_failed mc msg flush env e hres,
        MsgConn.WriteMessageIn_failed (Layout.separate σ τ α κ φ) mc msg flush env _ e rfl hres]
      rfl
  · rw [MsgConn.WriteMessage_panicked mc msg flush env hres,
      MsgConn.WriteMessageIn_panicked (Layout.separate σ τ α κ φ) mc msg flush env _ rfl hres]
    rfl

/-- What `MsgConn.ReadMessageIn` changes: in the struct only `rp`, in the program state
only the objects behind `Reader` and `Allocator`. -/
theorem MsgConn.ReadMessageIn_frame {ω σ τ α κ φ : Type} (L : Layout ω σ τ α κ φ)
    (mc : MsgConn σ τ α κ φ) (fuel : Nat) (x : ω)
    (out : Outcome (Option (List Byte) × Option Error)) (mc1 : MsgConn σ τ α κ φ) (x1 : ω)
    (h : mc.ReadMessageIn L fuel x = some (out, mc1, x1)) :
    mc1 = { mc with rp := mc1.rp } ∧ ∃ r a, x1 = L.putA (L.putR x r) a := by
  rcases hres : Msgconn.ReadMessage mc.Reader mc.GetAllocator fuel (L.view x).r (L.view x).a
    mc.rp.slice mc.maxInSize with _ | res
  · rw [MsgConn.ReadMessageIn_of_none L mc fuel x hres] at h
    cases h
  · rw [MsgConn.ReadMessageIn_of_some L mc fuel x res hres] at h
    simp only [Option.some.injEq, Prod.mk.injEq] at h
    obtain ⟨_, rfl, rfl⟩ := h
    exact ⟨rfl, res.r, res.a, rfl⟩

/-- What `MsgConn.WriteMessageIn` changes: in the struct only `wp`, in the program state
only the objects behind `Writer` and `Flusher`. -/
theorem MsgConn.WriteMessageIn_frame {ω σ τ α κ φ : Type} (L : Layout ω σ τ α κ φ)
    (mc : MsgConn σ τ α κ φ) (msg : List Byte) (flush : Bool) (x : ω) :
    (mc.WriteMessageIn L msg flush x).2.1 =
        { mc with wp := (mc.WriteMessageIn L msg flush x).2.1.wp } ∧
      ∃ w, (mc.WriteMessageIn L msg flush x).2.2 = L.putW x w ∨
        ∃ f, (mc.WriteMessageIn L msg flush x).2.2 = L.putFl (L.putW x w) f := by
  rcases hres : (Msgconn.WriteMessage mc.Writer (L.view x).w msg mc.wp.slice
    mc.maxOutSize).out with o | _
  · rcases o with _ | e
    · rcases Option.eq_none_or_eq_some mc.Flusher with hF | ⟨F, hF⟩
      · rw [MsgConn.WriteMessageIn_unflushed L mc msg flush x _ rfl hres (Or.inr hF)]
        exact ⟨rfl, _, Or.inl rfl⟩
      · cases flush
        · rw [MsgConn.WriteMessageIn_unflushed L mc msg false x _ rfl hres (Or.inl rfl)]
          exact ⟨rfl, _, Or.inl rfl⟩
        · rw [MsgConn.WriteMessageIn_flushed L mc msg x _ F rfl hres hF]
          exact ⟨rfl, _, Or.inr ⟨_, rfl⟩⟩
    · rw [MsgConn.WriteMessageIn_failed L mc msg flush x _ e rfl hres]
      exact ⟨rfl, _, Or.inl rfl⟩
  · rw [MsgConn.WriteMessageIn_panicked L mc msg flush x _ rfl hres]
    exact ⟨rfl, _, Or.inl rfl⟩

/-- What `MsgConn.ReadMessageIn` returns and stores into `rp` depends on the struct
only without `wp`, and on the program state only through the objects behind `Reader`
and `Allocator`. -/
theorem MsgConn.ReadMessageIn_congr {ω σ τ α κ φ : Type} (L : Layout ω σ τ α κ φ)
    (mc : MsgConn σ τ α κ φ) (fuel : Nat) (x x1 : ω) (p : Scratch)
    (hr : (L.view x1).r = (L.view x).r) (ha : (L.view x1).a = (L.view x).a) :
    (({ mc with wp := p } : MsgConn σ τ α κ φ).ReadMessageIn L fuel x1).map
        (fun y => (y.1, y.2.1.rp)) =
      (mc.ReadMessageIn L fuel x).map (fun y => (y.1, y.2.1.rp)) := by
  rcases hres : Msgconn.ReadMessage mc.Reader mc.GetAllocator fuel (L.view x).r (L.view x).a
    mc.rp.slice mc.maxInSize with _ | res
  · rw [MsgConn.ReadMessageIn_of_none L mc fuel x hres,
      MsgConn.ReadMessageIn_of_none L ({ mc with wp := p } : MsgConn σ τ α κ φ) fuel x1
        (by rw [hr, ha]; exact hres)]
  · rw [MsgConn.ReadMessageIn_of_some L mc fuel x res hres,
      MsgConn.ReadMessageIn_of_some L ({ mc with wp := p } : MsgConn σ τ α κ φ) fuel x1 res
        (by rw [hr, ha]; exact hres)]
    rfl

/-- What `MsgConn.WriteMessageIn` returns and stores into `wp` depends on the struct
only without `rp`, and on the program state only through the objects behind `Writer`
and, after the writes, `Flusher`. -/
theorem MsgConn.WriteMessageIn_congr {ω σ τ α κ φ : Type} (L : Layout ω σ τ α κ φ)
    (mc : MsgConn σ τ α κ φ) (msg : List Byte) (flush : Bool) (x x1 : ω) (p : Scratch)
    (hw : (L.view x1).w = (L.view x).w)
    (hfl : ∀ w, (L.view (L.putW x1 w)).fl = (L.view (L.putW x w)).fl) :
    (({ mc with rp := p } : MsgConn σ τ α κ φ).WriteMessageIn L msg flush x1).1 =
        (mc.WriteMessageIn L msg flush x).1 ∧
      (({ mc with rp := p } : MsgConn σ τ α κ φ).WriteMessageIn L msg flush x1).2.1.wp =
        (mc.WriteMessageIn L msg flush x).2.1.wp := by
  have key : Msgconn.WriteMessage ({ mc with rp := p } : MsgConn σ τ α κ φ).Writer
      (L.view x1).w msg ({ mc with rp := p } : MsgConn σ τ α κ φ).wp.slice
      ({ mc with rp := p } : MsgConn σ τ α κ φ).maxOutSize =
      Msgconn.WriteMessage mc.Writer (L.view x).w msg mc.wp.slice mc.maxOutSize := by
    rw [hw]
    rfl
  rcases hres : (Msgconn.WriteMessage mc.Writer (L.view x).w msg mc.wp.slice
    mc.maxOutSize).out with o | _
  · rcases o with _ | e
    · rcases Option.eq_none_or_eq_some mc.Flusher with hF | ⟨F, hF⟩
      · rw [MsgConn.WriteMessageIn_unflushed L mc msg flush x _ rfl hres (Or.inr hF),
          MsgConn.WriteMessageIn_unflushed L ({ mc with rp := p } : MsgConn σ τ α κ φ) msg
            flush x1 _ key hres (Or.inr hF)]
        exact ⟨rfl, rfl⟩
      · cases flush
        · rw [MsgConn.WriteMessageIn_unflushed L mc msg false x _ rfl hres (Or.inl rfl),
            MsgConn.WriteMessageIn_unflushed L ({ mc with rp := p } : MsgConn σ τ α κ φ) msg
              false x1 _ key hres (Or.inl rfl)]
          exact ⟨rfl, rfl⟩
        · rw [MsgConn.WriteMessageIn_flushed L mc msg x _ F rfl hres hF,
            MsgConn.WriteMessageIn_flushed L ({ mc with rp := p } : MsgConn σ τ α κ φ) msg
              x1 _ F key hres hF, hfl]
          exact ⟨rfl, rfl⟩
    · rw [MsgConn.WriteMessageIn_failed L mc msg flush x _ e rfl hres,
        MsgConn.WriteMessageIn_failed L ({ mc with rp := p } : MsgConn σ τ α κ φ) msg flush
          x1 _ e key hres]
      exact ⟨rfl, rfl⟩
  · rw [MsgConn.WriteMessageIn_panicked L mc msg flush x _ rfl hres,
      MsgConn.WriteMessageIn_panicked L ({ mc with rp := p } : MsgConn σ τ α κ φ) msg flush
        x1 _ key hres]
    exact ⟨rfl, rfl⟩

/-- Claim C18 (as stated, refuted). With `Reader` and `Writer` one and the same
`bytes.Buffer`, empty at first, and no limits set: `MsgConn.ReadMessage` alone returns
`(nil, io.EOF)`, but after `WriteMessage("hi", false)` on the same `MsgConn` it returns
`("hi", nil)`; the result of the read depends on the write made before it. -/
theorem C18_counterexample :
    ((MsgConn.zero Unit Unit Unit bufferReader bufferWriter).ReadMessageIn
        (Layout.sameObject (List Byte)) 5 []).map (fun y => y.1) =
      some (Outcome.returned (none, some Error.EOF)) ∧
    (((MsgConn.zero Unit Unit Unit bufferReader bufferWriter).WriteMessageIn
          (Layout.sameObject (List Byte)) [104, 105] false []).2.1.ReadMessageIn
        (Layout.sameObject (List Byte)) 5
        ((MsgConn.zero Unit Unit Unit bufferReader bufferWriter).WriteMessageIn
          (Layout.sameObject (List Byte)) [104, 105] false []).2.2).map (fun y => y.1) =
      some (Outcome.returned (some [104, 105], none)) := by
  decide

/-- Claim C18 (amended). In every program state, whichever fields hold the same
object: (1) `MsgConn.ReadMessage` changes, in the struct, only `rp` (so `wp` and every
configuration field stay), and outside the struct only the objects behind `Reader` and
`Allocator`; (2) `MsgConn.WriteMessage` changes, in the struct, only `wp`, and outside
the struct only the objects behind `Writer` and `Flusher`. (3) Hence, provided that a
store into the object behind `Writer` or `Flusher` leaves the objects behind `Reader`
and `Allocator` as they were, a `ReadMessage` made after a `WriteMessage` returns and
stores into `rp` exactly what it would have without the `WriteMessage`; (4) and,
provided that a store into the object behind `Reader` or `Allocator` leaves the objects
behind `Writer` and `Flusher` as they were and commutes with a store into the object
behind `Writer`, a `WriteMessage` made after a `ReadMessage` returns and stores into
`wp` exactly what it would have without the `ReadMessage`. -/
theorem C18_directions_apart {ω σ τ α κ φ : Type} (L : Layout ω σ τ α κ φ)
    (mc : MsgConn σ τ α κ φ) (msg : List Byte) (flush : Bool) (fuel : Nat) (x : ω) :
    (∀ out mc1 x1, mc.ReadMessageIn L fuel x = some (out, mc1, x1) →
      mc1 = { mc with rp := mc1.rp } ∧ ∃ r a, x1 = L.putA (L.putR x r) a) ∧
    ((mc.WriteMessageIn L msg flush x).2.1 =
        { mc with wp := (mc.WriteMessageIn L msg flush x).2.1.wp } ∧
      ∃ w, (mc.WriteMessageIn L msg flush x).2.2 = L.putW x w ∨
        ∃ f, (mc.WriteMessageIn L msg flush x).2.2 = L.putFl (L.putW x w) f) ∧
    ((∀ y w, (L.view (L.putW y w)).r = (L.view y).r ∧ (L.view (L.putW y w)).a = (L.view y).a) →
      (∀ y f, (L.view (L.putFl y f)).r = (L.view y).r ∧
        (L.view (L.putFl y f)).a = (L.view y).a) →
      ((mc.WriteMessageIn L msg flush x).2.1.ReadMessageIn L fuel
          (mc.WriteMessageIn L msg flush x).2.2).map (fun y => (y.1, y.2.1.rp)) =
        (mc.ReadMessageIn L fuel x).map (fun y => (y.1, y.2.1.rp))) ∧
    ((∀ y r, (L.view (L.putR y r)).w = (L.view y).w ∧
        (L.view (L.putR y r)).fl = (L.view y).fl) →
      (∀ y a, (L.view (L.putA y a)).w = (L.view y).w ∧
        (L.view (L.putA y a)).fl = (L.view y).fl) →
      (∀ y r w, L.putW (L.putR y r) w = L.putR (L.putW y w) r) →
      (∀ y a w, L.putW (L.putA y a) w = L.putA (L.putW y w) a) →
      ∀ out mc1 x1, mc.ReadMessageIn L fuel x = some (out, mc1, x1) →
        (mc1.WriteMessageIn L msg flush x1).1 = (mc.WriteMessageIn L msg flush x).1 ∧
        (mc1.WriteMessageIn L msg flush x1).2.1.wp =
          (mc.WriteMessageIn L msg flush x).2.1.wp) := by
  refine ⟨MsgConn.ReadMessageIn_frame L mc fuel x, MsgConn.WriteMessageIn_frame L mc msg flush x,
    ?_, ?_⟩
  · intro hw hf
    obtain ⟨h1, w, h2⟩ := MsgConn.WriteMessageIn_frame L mc msg flush x
    have hview : (L.view (mc.WriteMessageIn L msg flush x).2.2).r = (L.view x).r ∧
        (L.view (mc.WriteMessageIn L msg flush x).2.2).a = (L.view x).a := by
      rcases h2 with h2 | ⟨f, h2⟩
      · rw [h2]
        exact hw x w
      · rw [h2]
        exact ⟨(hf _ f).1.trans (hw x w).1, (hf _ f).2.trans (hw x w).2⟩
    have h := MsgConn.ReadMessageIn_congr L mc fuel x (mc.WriteMessageIn L msg flush x).2.2
      (mc.WriteMessageIn L msg flush x).2.1.wp hview.1 hview.2
    rw [← h1] at h
    exact h
  · intro hr ha hrw haw out mc1 x1 h
    obtain ⟨h1, r, a, h2⟩ := MsgConn.ReadMessageIn_frame L mc fuel x out mc1 x1 h
    rw [h1, h2]
    refine MsgConn.WriteMessageIn_congr L mc msg flush x _ mc1.rp ?_ ?_
    · exact (ha _ a).1.trans (hr x r).1
    · intro w
      rw [haw, hrw]
      exact (ha _ a).2.trans (hr _ r).2

/-- Instance of C18 (amended): with an in-memory source, a `bytes.Buffer` sink and no
state shared between them, reading the frame `[4,0,0,116,101,115,116]` after writing
`"hi"` gives `"test"` with `rp = [4,0,0]`, as reading at once does. -/
theorem C18_directions_apart_witness :
    (((⟨none, 5, 5, streamReader, bufferWriter, none, none, ⟨0, 0, 0⟩, ⟨0, 0, 0⟩⟩ :
          MsgConn Stream (List Byte) Unit Unit Unit).WriteMessageIn
            (Layout.separate Stream (List Byte) Unit Unit Unit) [104, 105] false
            ⟨⟨[4, 0, 0, 116, 101, 115, 116], [], Error.EOF⟩, [], (), (), ()⟩).2.1.ReadMessageIn
        (Layout.separate Stream (List Byte) Unit Unit Unit) 7
        ((⟨none, 5, 5, streamReader, bufferWriter, none, none, ⟨0, 0, 0⟩, ⟨0, 0, 0⟩⟩ :
          MsgConn Stream (List Byte) Unit Unit Unit).WriteMessageIn
            (Layout.separate Stream (List Byte) Unit Unit Unit) [104, 105] false
            ⟨⟨[4, 0, 0, 116, 101, 115, 116], [], Error.EOF⟩, [], (), (), ()⟩).2.2).map
        (fun y => (y.1, y.2.1.rp)) =
      some (Outcome.returned (some [116, 101, 115, 116], none), ⟨4, 0, 0⟩) :=
  ((C18_directions_apart (Layout.separate Stream (List Byte) Unit Unit Unit)
    (⟨none, 5, 5, streamReader, bufferWriter, none, none, ⟨0, 0, 0⟩, ⟨0, 0, 0⟩⟩ :
      MsgConn Stream (List Byte) Unit Unit Unit) [104, 105] false 7
    ⟨⟨[4, 0, 0, 116, 101, 115, 116], [], Error.EOF⟩, [], (), (), ()⟩).2.2.1
      (fun _ _ => ⟨rfl, rfl⟩) (fun _ _ => ⟨rfl, rfl⟩)).trans (by decide)

/-! ## The connection wrapper: the scratch buffers -/

/-- An error returned by `ReadAll` is an error some `Read` call returned. -/
theorem ReadAllFrom_err_source {σ : Type} (R : Reader σ) (fuel : Nat) :
    ∀ (s : σ) (b : List Byte) (index : Nat) (e : Error) (b1 : List Byte) (s1 : σ),
      ReadAllFrom R fuel s b index = some (some e, b1, s1) →
      ∃ s' p, (R.Read s' p).1.err = some e := by
  induction fuel with
  | zero =>
    intro s b index e b1 s1 h
    simp only [ReadAllFrom] at h
    split at h <;> cases h
  | succ fuel ih =>
    intro s b index e b1 s1 h
    by_cases hlt : index < b.length
    · rcases herr : (R.Read s (b.drop index)).1.err with _ | e'
      · rw [ReadAllFrom_step_ok R fuel s b index hlt herr] at h
        exact ih _ _ _ _ _ _ h
      · rw [ReadAllFrom_step_err R fuel s b index e' hlt herr] at h
        simp only [Option.some.injEq, Prod.mk.injEq] at h
        obtain ⟨rfl, -, -⟩ := h
        exact ⟨s, b.drop index, herr⟩
    · rw [ReadAllFrom_full _ _ _ _ _ (by omega)] at h
      cases h

/-- `WriteMessage` never panics, and an error it returns is `ErrPrefixBufferSize` from
the length check, `ErrMsgSize` from the size check, or an error a `Write` call
returned. -/
theorem WriteMessage_outcome {τ : Type} (W : Writer τ) (w : τ) (m c : List Byte) (max : Int) :
    (WriteMessage W w m c max).out ≠ Outcome.panicked ∧
    ∀ e, (WriteMessage W w m c max).out = Outcome.returned (some e) →
      (c.length ≠ 3 ∧ e = Error.ErrPrefixBufferSize) ∨ (c.length = 3 ∧ e = Error.ErrMsgSize) ∨
      (c.length = 3 ∧ ∃ s p, (W.Write s p).1.2 = some e) := by
  by_cases hc : c.length = 3
  · by_cases hsz : (m.length : Int) > max ∨ (m.length : Int) > MaxLegalSize ∨ (m.length : Int) ≤ 0
    · rw [WriteMessage_size_rejected W w m c max hc hsz]
      refine ⟨by simp, fun e he => Or.inr (Or.inl ⟨hc, ?_⟩)⟩
      simp only [Outcome.returned.injEq, Option.some.injEq] at he
      exact he.symm
    · obtain ⟨c1, _, _, heq⟩ := WriteMessage_pass W w m c max hc hsz
      rw [heq]
      rcases h1 : (W.Write w c1).1.2 with _ | e1
      · refine ⟨by simp, fun e he => Or.inr (Or.inr ⟨hc, (W.Write w c1).2, m, ?_⟩)⟩
        simp only [Outcome.returned.injEq] at he
        exact he
      · refine ⟨by simp, fun e he => Or.inr (Or.inr ⟨hc, w, c1, ?_⟩)⟩
        simp only [Outcome.returned.injEq, Option.some.injEq] at he
        rw [h1, he]
  · unfold WriteMessage
    rw [if_pos hc]
    refine ⟨by simp, fun e he => Or.inl ⟨hc, ?_⟩⟩
    simp only [Outcome.returned.injEq, Option.some.injEq] at he
    exact he.symm

/-- With a 3-byte scratch slice, `ReadMessage` panics only if the allocator does (on a
request for a positive length), and an error it returns is `ErrMsgSize` with a nil
buffer or an error a `Read` call returned. -/
theorem ReadMessage_outcome {σ α : Type} (R : Reader σ) (A : Allocator α) (fuel : Nat)
    (r : σ) (a : α) (c : List Byte) (max : Int) (res : ReadMessageResult σ α)
    (hc : c.length = 3) (h : ReadMessage R A fuel r a c max = some res) :
    (res.out = Outcome.panicked → ∃ l : Int, 0 < l ∧ (A.Allocate a l l).1 = Outcome.panicked) ∧
    ∀ buf e, res.out = Outcome.returned (buf, some e) →
      (buf = none ∧ e = Error.ErrMsgSize) ∨ ∃ s p, (R.Read s p).1.err = some e := by
  unfold ReadMessage at h
  rw [if_neg (by simp [hc])] at h
  rcases hread : ReadAll R fuel r c with _ | ⟨err, c1, r1⟩
  · rw [hread] at h
    cases h
  · rw [hread] at h
    rcases err with _ | e0
    · obtain ⟨l, hl⟩ := ParsePrefix_isSome c1
        (by rw [ReadAll_length R fuel r c none c1 r1 hread, hc])
      simp only [hl] at h
      split at h
      · cases h
        refine ⟨fun hp => (by cases hp), fun buf e he => Or.inl ?_⟩
        simp only [Outcome.returned.injEq, Prod.mk.injEq, Option.some.injEq] at he
        exact ⟨he.1.symm, he.2.symm⟩
      · rename_i hv
        rcases hA : A.Allocate a l l with ⟨o, a1⟩
        rw [hA] at h
        rcases o with data | _
        · simp only at h
          rcases hR : ReadAll R fuel r1 (data.getD []) with _ | ⟨err2, d1, r2⟩
          · rw [hR] at h
            cases h
          · rw [hR] at h
            cases h
            refine ⟨fun hp => (by cases hp), fun buf e he => Or.inr ?_⟩
            simp only [Outcome.returned.injEq, Prod.mk.injEq] at he
            obtain ⟨-, rfl⟩ := he
            exact ReadAllFrom_err_source R fuel _ _ _ _ _ _ hR
        · simp only [Option.some.injEq] at h
          subst h
          refine ⟨fun _ => ⟨l, by omega, by rw [hA]⟩, fun buf e he => by cases he⟩
    · simp only [Option.some.injEq] at h
      subst h
      refine ⟨fun hp => (by cases hp), fun buf e he => Or.inr ?_⟩
      simp only [Outcome.returned.injEq, Prod.mk.injEq, Option.some.injEq] at he
      obtain ⟨-, rfl⟩ := he
      exact ReadAllFrom_err_source R fuel _ _ _ _ _ _ hread

/-- Claim C19 (as stated, refuted). A reader whose `Read` returns the value
`ErrPrefixBufferSize` makes `MsgConn.ReadMessage` return `(nil, ErrPrefixBufferSize)`,
although the scratch slice passed has length 3. -/
theorem C19_counterexample :
    ((MsgConn.zero Unit Unit Unit (errReader Error.ErrPrefixBufferSize)
        bufferWriter).ReadMessage 3 ⟨(), [], (), (), ()⟩).map (fun y => y.1) =
      some (Outcome.returned (none, some Error.ErrPrefixBufferSize)) ∧
    (MsgConn.zero Unit Unit Unit (errReader Error.ErrPrefixBufferSize)
        bufferWriter).rp.slice.length = 3 := by
  decide

/-- Claim C19 (amended). For every `MsgConn` state the scratch slices `rp[:]` and
`wp[:]` passed to `ReadMessage` and `WriteMessage` have length exactly 3, so
`WritePrefix` and `ParsePrefix` never index out of range: `MsgConn.WriteMessage` never
panics, and `MsgConn.ReadMessage` panics only if the allocator does (never with the
default allocator). The length check never fires: `ErrPrefixBufferSize` is returned
only if a collaborator (`Read`, `Write` or `Flush`) itself returns that value. -/
theorem C19_scratch_buffers {σ τ α κ φ : Type} (mc : MsgConn σ τ α κ φ) (msg : List Byte)
    (flush : Bool) (fuel : Nat) (env : Env σ τ α κ φ) :
    (mc.rp.slice.length = 3 ∧ mc.wp.slice.length = 3) ∧
    (∀ l : Int, WritePrefix mc.wp.slice l ≠ none) ∧
    (∀ err c1 r1, ReadAll mc.Reader fuel env.r mc.rp.slice = some (err, c1, r1) →
      ParsePrefix c1 ≠ none) ∧
    (mc.WriteMessage msg flush env).1 ≠ Outcome.panicked ∧
    (∀ y, mc.ReadMessage fuel env = some y → y.1 = Outcome.panicked →
      ∃ l : Int, 0 < l ∧ (mc.GetAllocator.Allocate env.a l l).1 = Outcome.panicked) ∧
    (mc.Allocator = none → ∀ y, mc.ReadMessage fuel env = some y → y.1 ≠ Outcome.panicked) ∧
    ((∀ s p, (mc.Reader.Read s p).1.err ≠ some Error.ErrPrefixBufferSize) →
      ∀ y buf, mc.ReadMessage fuel env = some y →
        y.1 ≠ Outcome.returned (buf, some Error.ErrPrefixBufferSize)) ∧
    ((∀ s p, (mc.Writer.Write s p).1.2 ≠ some Error.ErrPrefixBufferSize) →
      (∀ F s, mc.Flusher = some F → (F.Flush s).1 ≠ some Error.ErrPrefixBufferSize) →
      (mc.WriteMessage msg flush env).1 ≠ Outcome.returned (some Error.ErrPrefixBufferSize)) := by
  have hrd : ∀ y, mc.ReadMessage fuel env = some y →
      ∃ res, Msgconn.ReadMessage mc.Reader mc.GetAllocator fuel env.r env.a mc.rp.slice
        mc.maxInSize = some res ∧ y.1 = res.out := by
    intro y hy
    rcases hres : Msgconn.ReadMessage mc.Reader mc.GetAllocator fuel env.r env.a mc.rp.slice
      mc.maxInSize with _ | res
    · rw [MsgConn.ReadMessage_of_none mc fuel env hres] at hy
      cases hy
    · rw [MsgConn.ReadMessage_of_some mc fuel env res hres] at hy
      cases hy
      exact ⟨res, rfl, rfl⟩
  have hpanic : ∀ y, mc.ReadMessage fuel env = some y → y.1 = Outcome.panicked →
      ∃ l : Int, 0 < l ∧ (mc.GetAllocator.Allocate env.a l l).1 = Outcome.panicked := by
    intro y hy hp
    obtain ⟨res, hres, hout⟩ := hrd y hy
    exact (ReadMessage_outcome mc.Reader mc.GetAllocator fuel env.r env.a mc.rp.slice
      mc.maxInSize res (Scratch.slice_length _) hres).1 (hout ▸ hp)
  have hwo := WriteMessage_outcome mc.Writer env.w msg mc.wp.slice mc.maxOutSize
  refine ⟨⟨rfl, rfl⟩, ?_, ?_, ?_, hpanic, ?_, ?_, ?_⟩
  · intro l
    simp [WritePrefix, Scratch.slice]
  · intro err c1 r1 h hp
    obtain ⟨l, hl⟩ := ParsePrefix_isSome c1
      (by rw [ReadAll_length mc.Reader fuel env.r mc.rp.slice err c1 r1 h]; exact le_refl 3)
    rw [hl] at hp
    cases hp
  · rcases hres : (Msgconn.WriteMessage mc.Writer env.w msg mc.wp.slice mc.maxOutSize).out
      with o | _
    · rcases o with _ | e
      · rcases Option.eq_none_or_eq_some mc.Flusher with hF | ⟨F, hF⟩
        · rw [MsgConn.WriteMessage_unflushed mc msg flush env hres (Or.inr hF)]
          simp
        · cases flush
          · rw [MsgConn.WriteMessage_unflushed mc msg false env hres (Or.inl rfl)]
            simp
          · rw [MsgConn.WriteMessage_flushed mc msg env F hres hF]
            simp
      · rw [MsgConn.WriteMessage_failed mc msg flush env e hres]
        simp
    · exact absurd hres hwo.1
  · intro hA y hy hp
    obtain ⟨l, hl0, hl⟩ := hpanic y hy hp
    have : mc.GetAllocator = MakeAllocator.onState α := by
      simp [MsgConn.GetAllocator, hA]
    rw [this] at hl
    have hl' : 0 ≤ l ∧ l ≤ l := ⟨by omega, le_refl l⟩
    simp [Allocator.onState, MakeAllocator, hl'] at hl
  · intro hR y buf hy hout
    obtain ⟨res, hres, hy1⟩ := hrd y hy
    rcases (ReadMessage_outcome mc.Reader mc.GetAllocator fuel env.r env.a mc.rp.slice
      mc.maxInSize res (Scratch.slice_length _) hres).2 buf
      Error.ErrPrefixBufferSize (hy1 ▸ hout) with ⟨-, h⟩ | ⟨s, p, h⟩
    · cases h
    · exact hR s p h
  · intro hW hFl
    rcases hres : (Msgconn.WriteMessage mc.Writer env.w msg mc.wp.slice mc.maxOutSize).out
      with o | _
    · rcases o with _ | e
      · rcases Option.eq_none_or_eq_some mc.Flusher with hF | ⟨F, hF⟩
        · rw [MsgConn.WriteMessage_unflushed mc msg flush env hres (Or.inr hF)]
          simp
        · cases flush
          · rw [MsgConn.WriteMessage_unflushed mc msg false env hres (Or.inl rfl)]
            simp
          · rw [MsgConn.WriteMessage_flushed mc msg env F hres hF]
            intro h
            simp only [Outcome.returned.injEq] at h
            exact hFl F _ hF h
      · rw [MsgConn.WriteMessage_failed mc msg flush env e hres]
        intro h
        simp only [Outcome.returned.injEq, Option.some.injEq] at h
        subst h
        rcases hwo.2 _ hres with ⟨hc, -⟩ | ⟨-, h⟩ | ⟨-, s, p, h⟩
        · exact hc rfl
        · cases h
        · exact hW s p h
    · exact absurd hres hwo.1

/-- Instance of C19: a zero-valued `MsgConn` over an in-memory buffer, which never
returns an error, does not return `ErrPrefixBufferSize` when writing `"hi"`. -/
theorem C19_scratch_buffers_witness :
    ((MsgConn.zero Unit Unit Unit streamReader bufferWriter).WriteMessage [104, 105] true
        ⟨⟨[], [], Error.EOF⟩, [], (), (), ()⟩).1
      ≠ Outcome.returned (some Error.ErrPrefixBufferSize) :=
  (C19_scratch_buffers (MsgConn.zero Unit Unit Unit streamReader bufferWriter) [104, 105] true
    3 ⟨⟨[], [], Error.EOF⟩, [], (), (), ()⟩).2.2.2.2.2.2.2
    (fun _ _ h => by cases h) (fun F _ hF => by cases hF)

/-! ## Termination of the full-transfer loop -/

/-- With a reader whose every call on a non-empty slice either fails or reports between
one byte and the number offered, the loop of `ReadAll` ends within as many `Read`
calls as bytes are still wanted. -/
theorem recording_ReadAllFrom_terminates {σ : Type} (R : Reader σ)
    (hR : ∀ s p, p ≠ [] → (R.Read s p).1.err ≠ none ∨
      (1 ≤ (R.Read s p).1.n ∧ (R.Read s p).1.n ≤ p.length)) (fuel : Nat) :
    ∀ (s : σ) (log0 : List (Nat × ReadReturn)) (b : List Byte) (index : Nat),
      index ≤ b.length → b.length - index ≤ fuel →
      ∃ err b1 s1 ext, ReadAllFrom R.recording fuel (s, log0) b index
          = some (err, b1, (s1, log0 ++ ext)) ∧
        ext.length ≤ b.length - index ∧ (∀ e ∈ ext, e.2.err = none → e.2.n ≤ e.1) := by
  induction fuel with
  | zero =>
    intro s log0 b index hle hf
    refine ⟨none, b, s, [], ?_, by simp, by simp⟩
    rw [ReadAllFrom_full _ _ _ _ _ (by omega)]
    simp
  | succ fuel ih =>
    intro s log0 b index hle hf
    by_cases hlt : index < b.length
    · have hp : b.drop index ≠ [] := by
        intro h
        have := congrArg List.length h
        simp only [List.length_drop, List.length_nil] at this
        omega
      have hb' : (b.take index ++ store (b.drop index) (R.Read s (b.drop index)).1.data).length
          = b.length := by
        simp only [List.length_append, List.length_take, store_length, List.length_drop]
        omega
      rcases herr : (R.Read s (b.drop index)).1.err with _ | e
      · have hn : 1 ≤ (R.Read s (b.drop index)).1.n ∧
            (R.Read s (b.drop index)).1.n ≤ (b.drop index).length := by
          rcases hR s (b.drop index) hp with h | h
          · exact absurd herr h
          · exact h
        have hn2 := hn.2
        simp only [List.length_drop] at hn2
        obtain ⟨err, b1, s1, ext, h1, h2, h3⟩ := ih (R.Read s (b.drop index)).2
          (log0 ++ [((b.drop index).length, (R.Read s (b.drop index)).1)])
          (b.take index ++ store (b.drop index) (R.Read s (b.drop index)).1.data)
          (index + (R.Read s (b.drop index)).1.n) (by rw [hb']; omega) (by rw [hb']; omega)
        refine ⟨err, b1, s1, ((b.drop index).length, (R.Read s (b.drop index)).1) :: ext,
          ?_, ?_, ?_⟩
        · rw [recording_step_ok R fuel s log0 b index hlt herr, h1]
          simp
        · rw [hb'] at h2
          simp only [List.length_cons]
          omega
        · intro e he
          rcases List.mem_cons.mp he with rfl | he
          · intro _
            exact hn.2
          · exact h3 e he
      · refine ⟨some e, _, _, [((b.drop index).length, (R.Read s (b.drop index)).1)],
          recording_step_err R fuel s log0 b index e hlt herr, ?_, ?_⟩
        · simp only [List.length_cons, List.length_nil]
          omega
        · intro e' he' hnone
          simp only [List.mem_singleton] at he'
          subst he'
          rw [herr] at hnone
          cases hnone
    · refine ⟨none, b, s, [], ?_, by simp, by simp⟩
      rw [ReadAllFrom_full _ _ _ _ _ (by omega)]
      simp

/-- With a reader that reports 0 bytes and a nil error on every call, the loop of
`ReadAll` never ends while bytes are wanted. -/
theorem ReadAllFrom_stalls {σ : Type} (R : Reader σ)
    (hR : ∀ s p, (R.Read s p).1.err = none ∧ (R.Read s p).1.n = 0) (fuel : Nat) :
    ∀ (s : σ) (b : List Byte) (index : Nat), index < b.length →
      ReadAllFrom R fuel s b index = none := by
  induction fuel with
  | zero =>
    intro s b index hlt
    simp [ReadAllFrom, hlt]
  | succ fuel ih =>
    intro s b index hlt
    rw [ReadAllFrom_step_ok R fuel s b index hlt (hR _ _).1, (hR _ _).2]
    apply ih
    simp only [List.length_append, List.length_take, store_length, List.length_drop]
    omega

/-- Claim C20. For every buffer `b` and every source whose every `Read` call (on a
non-empty slice) either returns a non-nil error or reports at least one and at most
the requested number of bytes: `ReadAll` returns, after at most `len(b)` `Read` calls
(none when `b` is empty, returning nil); and when it returns nil, the counts reported
add up to exactly `len(b)`, and `b` holds the bytes delivered if every call stored
what it reported. For a source that reports 0 bytes with a nil error on every call and
a non-empty `b`, `ReadAll` never returns: no number of `Read` calls ends the loop. -/
theorem C20_ReadAll_termination {σ : Type} (R : Reader σ) (s : σ) (b : List Byte) (fuel : Nat)
    (hR : ∀ s p, p ≠ [] → (R.Read s p).1.err ≠ none ∨
      (1 ≤ (R.Read s p).1.n ∧ (R.Read s p).1.n ≤ p.length))
    (hf : b.length ≤ fuel) :
    (∃ err b1 s1 log, ReadAll R.recording fuel (s, []) b = some (err, b1, (s1, log)) ∧
      log.length ≤ b.length ∧
      (b = [] → log = [] ∧ err = none) ∧
      (err = none → consumed log = b.length ∧
        ((∀ e ∈ log, e.2.n ≤ e.2.data.length) → b1 = delivered log))) ∧
    (∀ (R0 : Reader σ) (s0 : σ) (k : Nat),
      (∀ s p, (R0.Read s p).1.err = none ∧ (R0.Read s p).1.n = 0) → b ≠ [] →
      ReadAll R0 k s0 b = none) := by
  constructor
  · obtain ⟨err, b1, s1, ext, h1, h2, h3⟩ :=
      recording_ReadAllFrom_terminates R hR fuel s [] b 0 (Nat.zero_le _) (by omega)
    simp only [List.nil_append, Nat.sub_zero] at h1 h2
    refine ⟨err, b1, s1, ext, h1, h2, ?_, ?_⟩
    · intro hb
      subst hb
      have hext : ext = [] := List.length_eq_zero.mp (Nat.le_zero.mp h2)
      subst hext
      have hfull := ReadAllFrom_full R.recording fuel (s, []) [] 0 (le_refl _)
      rw [hfull] at h1
      simp only [Option.some.injEq, Prod.mk.injEq] at h1
      exact ⟨rfl, h1.1.symm⟩
    · intro hnone
      subst hnone
      have hrun : ReadAll R.recording fuel (s, []) b = some (none, b1, (s1, [] ++ ext)) := by
        simpa [ReadAll] using h1
      obtain ⟨ext', e1, -, e2, e3, -, -⟩ := recording_ReadAllFrom_shape R fuel _ _ _ _ _ _ _ _ h1
      simp only [List.nil_append] at e1
      subst e1
      have hall : ∀ e ∈ ext, e.2.err = none := by
        intro e he
        rcases List.eq_nil_or_concat ext with hnil | ⟨init, lst, hcat⟩
        · subst hnil
          cases he
        · subst hcat
          rw [List.concat_eq_append] at e2 e3 he
          rw [List.dropLast_concat] at e2
          have e3' : none = lst.2.err := by simpa using e3
          rcases List.mem_append.mp he with h | h
          · exact e2 e h
          · rw [List.mem_singleton] at h
            subst h
            exact e3'.symm
      have hcons := recording_ReadAll_consumed R fuel s s1 [] ext b b1 hrun
        (fun e he => h3 e he (hall e he))
      refine ⟨hcons, fun hdat => ?_⟩
      have hd := (recording_ReadAllFrom_data R fuel s [] b 0 none b1 s1 ext
        (by simpa [ReadAll] using hrun)
        (fun e he => h3 e (List.mem_of_mem_filter he) (hall e (List.mem_of_mem_filter he)))
        (Nat.zero_le _)).2 (fun e he => hdat e (List.mem_of_mem_filter he))
      simp only [Nat.zero_add, List.take_zero, List.nil_append] at hd
      rw [← hd, hcons, ← ReadAll_length R.recording fuel (s, []) b none b1 (s1, ext) h1,
        List.take_length]
  · intro R0 s0 k h0 hb
    exact ReadAllFrom_stalls R0 h0 k s0 b 0 (List.length_pos.mpr hb)

theorem oneByteReader_progress (s p : List Byte) (hp : p ≠ []) :
    (oneByteReader.Read s p).1.err ≠ none ∨
      (1 ≤ (oneByteReader.Read s p).1.n ∧ (oneByteReader.Read s p).1.n ≤ p.length) := by
  cases s with
  | nil => exact Or.inl (by simp [oneByteReader])
  | cons x rest =>
    cases p with
    | nil => exact absurd rfl hp
    | cons y q => exact Or.inr (by simp [oneByteReader])

/-- Instance of C20: six bytes wanted from `"tester"` handed out one byte per call: the
loop ends within six calls. -/
theorem C20_ReadAll_termination_witness :
    ∃ err b1 s1 log, ReadAll oneByteReader.recording 6 ([116, 101, 115, 116, 101, 114], [])
        [97, 97, 97, 97, 97, 97] = some (err, b1, (s1, log)) ∧
      log.length ≤ ([97, 97, 97, 97, 97, 97] : List Byte).length ∧
      (([97, 97, 97, 97, 97, 97] : List Byte) = [] → log = [] ∧ err = none) ∧
      (err = none → consumed log = ([97, 97, 97, 97, 97, 97] : List Byte).length ∧
        ((∀ e ∈ log, e.2.n ≤ e.2.data.length) → b1 = delivered log)) :=
  (C20_ReadAll_termination oneByteReader [116, 101, 115, 116, 101, 114]
    [97, 97, 97, 97, 97, 97] 6 oneByteReader_progress (by decide)).1

end Msgconn
